import Mathlib

/-!
Verification of the recipe-management backend (Django/DRF application).

The development shallowly embeds the application's data model
(`core.models`: `User`, `Recipe`, `Tag`, `Ingredient`), the recipe app's
serializers (`recipe/serializers.py`), view sets (`recipe/views.py`) and
router registrations (`recipe/urls.py`) as pure Lean functions over an
explicit database state, and proves the stated properties about them.

Database tables are lists of rows; primary keys are drawn from per-table
counters (modelling the database sequences).  Request handlers are
functions from a database state and request data to a status code and a
new database state; a Python exception escaping a handler is modelled by
`Option`/`none`.
-/

namespace RecipeAPI

/-- A user row (`core.models.User`): primary key, email (the username
field), password and display name. -/
structure User where
  id : Nat
  email : String
  password : String
  name : String
deriving DecidableEq

/-- A tag row (`core.models.Tag`): primary key, owning user id
(`user` foreign key) and `name`. -/
structure Tag where
  id : Nat
  user : Nat
  name : String
deriving DecidableEq

/-- An ingredient row (`core.models.Ingredient`): primary key, owning user
id and `name`. -/
structure Ingredient where
  id : Nat
  user : Nat
  name : String
deriving DecidableEq

/-- A recipe row (`core.models.Recipe`): primary key, owning user id, the
scalar fields `title`, `time_minutes`, `price` (a decimal, embedded as a
rational), `description`, `link`, the optional stored `image` path, and
the two many-to-many association lists (ids of linked tags and
ingredients). -/
structure Recipe where
  id : Nat
  user : Nat
  title : String
  time_minutes : Nat
  price : Rat
  description : String
  link : String
  image : Option String
  tags : List Nat
  ingredients : List Nat
deriving DecidableEq

/-- The database state: one list of rows per table, plus the next value of
each table's primary-key sequence. -/
structure DB where
  users : List User
  recipes : List Recipe
  tags : List Tag
  ingredients : List Ingredient
  nextUserId : Nat
  nextRecipeId : Nat
  nextTagId : Nat
  nextIngredientId : Nat
deriving DecidableEq

/-! ## Router registrations (`recipe/urls.py`)

`urls.py` builds a `DefaultRouter` and registers exactly two view sets:
`router.register("recipe", views.RecipeViewSet)` and
`router.register("tags", views.TagViewSet)`.  For each registration the
router derives the basename from the view set's queryset model
(`recipe`, `tag`) and exposes the reverse names `<basename>-list` and
`<basename>-detail`. -/

/-- The (url-path, basename) pairs registered with the router in
`recipe/urls.py`.  `IngredientViewSet` exists in `recipe/views.py` but is
never registered. -/
def routerRegistrations : List (String × String) :=
  [("recipe", "recipe"), ("tags", "tag")]

/-- The reverse names the router exposes: `<basename>-list` and
`<basename>-detail` for every registration. -/
def routerRouteNames : List String :=
  routerRegistrations.flatMap (fun reg => [reg.2 ++ "-list", reg.2 ++ "-detail"])

/-! ## Email normalization and user creation (`core/models.py` manager,
`user` app) -/

/-- Lowercase every character of a string (ASCII case folding of the
domain part, as `str.lower` does on the test inputs). -/
def lowerString (s : String) : String :=
  ⟨s.data.map Char.toLower⟩

/-- Split a character list at its last `'@'`: returns the part before and
the part after.  Returns `none` when no `'@'` occurs (`rsplit("@", 1)`
raising `ValueError` in the framework's `normalize_email`, which then
leaves the input unchanged). -/
def rsplitAtSign (cs : List Char) : Option (List Char × List Char) :=
  match cs.reverse.span (fun c => !(c = '@' : Bool)) with
  | (revDom, _ :: revLoc) => some (revLoc.reverse, revDom.reverse)
  | (_, []) => none

/-- Modelled from the spec: `core/models.py` (the custom user manager) is
not under `src/`; only its tests are.  Per the spec's "email
normalization" (§8) and the framework manager it delegates to, the email
is split at its last `'@'` and the domain part is lowercased while the
local part is preserved; an email without `'@'` is left unchanged. -/
def normalize_email (email : String) : String :=
  match rsplitAtSign email.data with
  | some (loc, dom) => ⟨loc ++ '@' :: dom.map Char.toLower⟩
  | none => email

/-- Modelled from the spec: `core/models.py`'s `UserManager.create_user`
is not under `src/`; only its tests are.  Per the spec (custom user keyed
by email, email normalization) and the tests, creating a user with an
empty email raises `ValueError` (`none`); otherwise the stored email is
the normalized input. -/
def manager_create_user (email : String) : Option String :=
  if email = "" then none else some (normalize_email email)

/-- Modelled from the spec: the `user` app's serializer and create view
are not under `src/` (only their tests are).  Per the spec (§7:
framework-level validation, HTTP 400 for invalid payloads; §8:
password-length validation) the request is rejected with 400, storing
nothing, when the password is shorter than 5 characters, the email is
empty, or the email is already taken; otherwise it stores a new user
whose email is the normalized input. -/
def createUserRequest (db : DB) (email password uname : String) : Nat × DB :=
  if password.length < 5 ∨ email = "" ∨ db.users.any (fun u => u.email == email) then
    (400, db)
  else
    (201, { db with
      users := db.users ++ [⟨db.nextUserId, normalize_email email, password, uname⟩],
      nextUserId := db.nextUserId + 1 })

/-! ## Tag and ingredient list endpoints
(`BaseRecipeAttrViewSet.get_queryset` in `recipe/views.py`)

The method returns `self.queryset.filter(user=self.request.user)
.order_by("-name")`.  The request's query parameters are available to the
method but are never read, so they are a dead argument of the embedding. -/

/-- The `order_by("-name")` relation on tags: descending by `name`. -/
def tagNameDesc (a b : Tag) : Prop := b.name ≤ a.name

/-- The `order_by("-name")` relation on ingredients: descending by
`name`. -/
def ingredientNameDesc (a b : Ingredient) : Prop := b.name ≤ a.name

/-- The `order_by("-id")` relation on recipes: descending by `id`. -/
def recipeIdDesc (a b : Recipe) : Prop := b.id ≤ a.id

instance : DecidableRel tagNameDesc :=
  fun a b => inferInstanceAs (Decidable (b.name ≤ a.name))

instance : DecidableRel ingredientNameDesc :=
  fun a b => inferInstanceAs (Decidable (b.name ≤ a.name))

instance : DecidableRel recipeIdDesc :=
  fun a b => inferInstanceAs (Decidable (b.id ≤ a.id))

instance : IsTotal Tag tagNameDesc :=
  ⟨fun a b => (le_total b.name a.name).imp id id⟩

instance : IsTrans Tag tagNameDesc :=
  ⟨fun _ _ _ h1 h2 => le_trans h2 h1⟩

instance : IsTotal Ingredient ingredientNameDesc :=
  ⟨fun a b => (le_total b.name a.name).imp id id⟩

instance : IsTrans Ingredient ingredientNameDesc :=
  ⟨fun _ _ _ h1 h2 => le_trans h2 h1⟩

instance : IsTotal Recipe recipeIdDesc :=
  ⟨fun a b => (le_total b.id a.id).imp id id⟩

instance : IsTrans Recipe recipeIdDesc :=
  ⟨fun _ _ _ h1 h2 => le_trans h2 h1⟩

/-- The tag list endpoint (`TagViewSet` list action): the authenticated
user's tags ordered by name descending.  `queryParams` is the request's
query string, which `get_queryset` never reads. -/
def tag_list (db : DB) (u : Nat) (queryParams : List (String × String)) : List Tag :=
  List.insertionSort tagNameDesc (db.tags.filter (fun t => t.user == u))

/-- The ingredient list operation (`IngredientViewSet` list action, as
defined in `recipe/views.py`): the authenticated user's ingredients
ordered by name descending; query parameters unread. -/
def ingredient_list (db : DB) (u : Nat) (queryParams : List (String × String)) :
    List Ingredient :=
  List.insertionSort ingredientNameDesc (db.ingredients.filter (fun i => i.user == u))

/-! ## Recipe list queryset (`RecipeViewSet` in `recipe/views.py`) -/

/-- `str.split(",")`: the pieces of a character list between commas; the
empty string yields one empty piece. -/
def splitOnComma (cs : List Char) : List (List Char) :=
  match cs with
  | [] => [[]]
  | c :: rest =>
    let r := splitOnComma rest
    if c = ',' then [] :: r
    else
      match r with
      | h :: t => (c :: h) :: t
      | [] => [[c]]

/-- The numeric value of an ASCII digit. -/
def charDigit? (c : Char) : Option Nat :=
  if c.isDigit then some (c.toNat - 48) else none

/-- The value of a non-empty all-digit character list. -/
def digitsToNat? (cs : List Char) : Option Nat :=
  match cs with
  | [] => none
  | _ =>
    cs.foldl (fun acc c => do
      let n ← acc
      let d ← charDigit? c
      pure (n * 10 + d)) (some 0)

/-- Python's `int(...)` on a string, modelled for ASCII decimal literals
with an optional leading minus sign; any other input raises
`ValueError` (`none`). -/
def str_to_int (s : String) : Option Int :=
  match s.data with
  | '-' :: cs => (digitsToNat? cs).map (fun n => -(n : Int))
  | cs => (digitsToNat? cs).map (fun n => (n : Int))

/-- `RecipeViewSet._params_to_ints`: split the query-string value on
commas and convert each piece with `int(...)`; a piece `int` rejects
makes the whole conversion fail (`ValueError`). -/
def params_to_ints (qs : String) : Option (List Int) :=
  (splitOnComma qs.data).mapM (fun cs => str_to_int (String.mk cs))

/-- `queryset.filter(tags__id__in=tag_ids)`: the SQL join yields one row
per (recipe, matching linked tag) pair; duplicates are later removed by
`.distinct()`. -/
def filterByTagIds (rs : List Recipe) (ids : List Int) : List Recipe :=
  rs.flatMap (fun r =>
    (r.tags.filter (fun tid => decide (Int.ofNat tid ∈ ids))).map (fun _ => r))

/-- `queryset.filter(ingredients__id__in=ing_ids)`: one row per
(recipe, matching linked ingredient) pair. -/
def filterByIngredientIds (rs : List Recipe) (ids : List Int) : List Recipe :=
  rs.flatMap (fun r =>
    (r.ingredients.filter (fun iid => decide (Int.ofNat iid ∈ ids))).map (fun _ => r))

/-- The `tags` query-parameter step of `RecipeViewSet.get_queryset`:
`tags = self.request.query_params.get("tags"); if tags: ...`.  An absent
parameter (`none`) and a present empty value (`some ""`, which is falsy
in Python) leave the queryset unfiltered; a present non-empty value is
split and converted, a conversion failure propagating as an
exception (`none`). -/
def applyTagFilter (q : List Recipe) (p : Option String) : Option (List Recipe) :=
  match p with
  | none => some q
  | some s => if s = "" then some q else (params_to_ints s).map (filterByTagIds q)

/-- The `ingredients` query-parameter step of
`RecipeViewSet.get_queryset`; same policy as the tags step. -/
def applyIngredientFilter (q : List Recipe) (p : Option String) :
    Option (List Recipe) :=
  match p with
  | none => some q
  | some s => if s = "" then some q else (params_to_ints s).map (filterByIngredientIds q)

/-- `RecipeViewSet.get_queryset`: apply the optional tag and ingredient
filters to the recipe table, then
`.filter(user=self.request.user).order_by("-id").distinct()`. -/
def recipe_queryset (db : DB) (u : Nat) (tagsParam ingredientsParam : Option String) :
    Option (List Recipe) :=
  (applyTagFilter db.recipes tagsParam).bind fun q1 =>
    (applyIngredientFilter q1 ingredientsParam).map fun q2 =>
      List.dedup (List.insertionSort recipeIdDesc (q2.filter (fun r => r.user == u)))

/-- The tags query-parameter policy as the specification's claim states
it: every present value, empty or not, is processed by the
split-and-convert step; only an absent parameter is ignored.  Written for
comparison with `applyTagFilter`, which is the code's policy. -/
def applyTagFilterClaimed (q : List Recipe) (p : Option String) :
    Option (List Recipe) :=
  match p with
  | none => some q
  | some s => (params_to_ints s).map (filterByTagIds q)

/-- `recipe_queryset` with the claimed parameter policy in place of the
code's policy for the tags parameter. -/
def recipe_queryset_claimed (db : DB) (u : Nat)
    (tagsParam ingredientsParam : Option String) : Option (List Recipe) :=
  (applyTagFilterClaimed db.recipes tagsParam).bind fun q1 =>
    (applyIngredientFilter q1 ingredientsParam).map fun q2 =>
      List.dedup (List.insertionSort recipeIdDesc (q2.filter (fun r => r.user == u)))

/-- The recipe list pipeline applied to an already user-scoped row set:
auxiliary factored form of `recipe_queryset`, used to state that the
response depends only on the requesting user's rows. -/
def recipeListPipeline (rows : List Recipe) (tp ip : Option String) :
    Option (List Recipe) :=
  (applyTagFilter rows tp).bind fun q1 =>
    (applyIngredientFilter q1 ip).map fun q2 =>
      List.dedup (List.insertionSort recipeIdDesc q2)

/-! ## Detail requests on recipes (DRF generic view machinery over
`get_queryset`)

The framework's `get_object` looks the url's `pk` up inside the view's
(user-scoped) queryset and raises `Http404` when it is not there; the
retrieve/update/destroy mixins call it before acting.  Detail requests
carry no filter parameters. -/

/-- `self.get_object()` for `RecipeViewSet` detail routes: find `pk`
inside the user-scoped queryset. -/
def recipe_get_object (db : DB) (u : Nat) (pk : Nat) : Option Recipe :=
  match recipe_queryset db u none none with
  | some l => l.find? (fun r => r.id == pk)
  | none => none

/-- A GET detail request (`RetrieveModelMixin.retrieve`): 200 with no
state change when the object is found, else 404. -/
def recipeRetrieveRequest (db : DB) (u : Nat) (pk : Nat) : Nat × DB :=
  match recipe_get_object db u pk with
  | some _ => (200, db)
  | none => (404, db)

/-- A DELETE detail request (`DestroyModelMixin.destroy`): delete the
found object and answer 204, else 404 with no state change. -/
def recipeDestroyRequest (db : DB) (u : Nat) (pk : Nat) : Nat × DB :=
  match recipe_get_object db u pk with
  | some r => (204, { db with recipes := db.recipes.filter (fun x => !(x.id == r.id)) })
  | none => (404, db)

/-! ## Get-or-create of tags and ingredients
(`RecipeSerializer._get_or_create_tags` / `_get_or_create_ingredients`) -/

/-- `Tag.objects.get_or_create(user=auth_user, name=...)`, lookup half:
the first tag row matching the owning user and the name. -/
def findTagRow (db : DB) (u : Nat) (name : String) : Option Tag :=
  db.tags.find? (fun t => t.user == u && t.name == name)

/-- `Ingredient.objects.get_or_create(user=auth_user, name=...)`, lookup
half. -/
def findIngredientRow (db : DB) (u : Nat) (name : String) : Option Ingredient :=
  db.ingredients.find? (fun i => i.user == u && i.name == name)

/-- `Tag.objects.get_or_create(user=auth_user, **tag)`: return the
matching row unchanged, or insert a fresh row owned by `u` with a fresh
primary key. -/
def tag_get_or_create (db : DB) (u : Nat) (name : String) : Tag × DB :=
  match findTagRow db u name with
  | some t => (t, db)
  | none =>
      let t : Tag := ⟨db.nextTagId, u, name⟩
      (t, { db with tags := db.tags ++ [t], nextTagId := db.nextTagId + 1 })

/-- `Ingredient.objects.get_or_create(user=auth_user, **ingredient)`. -/
def ingredient_get_or_create (db : DB) (u : Nat) (name : String) : Ingredient × DB :=
  match findIngredientRow db u name with
  | some i => (i, db)
  | none =>
      let i : Ingredient := ⟨db.nextIngredientId, u, name⟩
      (i, { db with
            ingredients := db.ingredients ++ [i],
            nextIngredientId := db.nextIngredientId + 1 })

/-- `recipe.tags.add(tag_obj)`: link the tag id to the recipe's
many-to-many list; adding an already-linked id is a no-op. -/
def recipeAddTag (db : DB) (rid tid : Nat) : DB :=
  { db with recipes := db.recipes.map (fun r =>
      if r.id == rid then
        (if r.tags.contains tid then r else { r with tags := r.tags ++ [tid] })
      else r) }

/-- `recipe.ingredients.add(ingredient_obj)`. -/
def recipeAddIngredient (db : DB) (rid iid : Nat) : DB :=
  { db with recipes := db.recipes.map (fun r =>
      if r.id == rid then
        (if r.ingredients.contains iid then r
         else { r with ingredients := r.ingredients ++ [iid] })
      else r) }

/-- One iteration of the loop in `_get_or_create_tags`: get or create the
named tag for the authenticated user and link it to the recipe. -/
def get_or_create_tag_step (u rid : Nat) (db : DB) (name : String) : DB :=
  let p := tag_get_or_create db u name
  recipeAddTag p.2 rid p.1.id

/-- One iteration of the loop in `_get_or_create_ingredients`. -/
def get_or_create_ingredient_step (u rid : Nat) (db : DB) (name : String) : DB :=
  let p := ingredient_get_or_create db u name
  recipeAddIngredient p.2 rid p.1.id

/-- `RecipeSerializer._get_or_create_tags(tags, recipe)`: loop over the
payload's tag names. -/
def get_or_create_tags (db : DB) (u : Nat) (names : List String) (rid : Nat) : DB :=
  names.foldl (get_or_create_tag_step u rid) db

/-- `RecipeSerializer._get_or_create_ingredients(ingredients, recipe)`. -/
def get_or_create_ingredients (db : DB) (u : Nat) (names : List String) (rid : Nat) :
    DB :=
  names.foldl (get_or_create_ingredient_step u rid) db

/-! ## Serializer create and update (`RecipeSerializer` in
`recipe/serializers.py`) -/

/-- A raw recipe write payload as a client may send it: the serializer's
writable fields (each key optionally present), plus a `user` key, which a
client may send but which is not among `Meta.fields` and is therefore
dropped by validation.  Tag and ingredient items are their `name` values
(the nested serializers' only writable field). -/
structure RecipePayload where
  title : Option String
  time_minutes : Option Nat
  price : Option Rat
  link : Option String
  description : Option String
  tags : Option (List String)
  ingredients : Option (List String)
  user : Option Nat
deriving DecidableEq

/-- The serializer's `validated_data` for a recipe write: exactly the
writable `Meta.fields` keys that were present in the payload. -/
structure ValidatedRecipeData where
  title : Option String
  time_minutes : Option Nat
  price : Option Rat
  link : Option String
  description : Option String
  tags : Option (List String)
  ingredients : Option (List String)
deriving DecidableEq

/-- Validation of a raw payload: keys that are not serializer fields
(such as `user`) are ignored, not rejected; the rest pass through. -/
def run_validation (p : RecipePayload) : ValidatedRecipeData :=
  { title := p.title, time_minutes := p.time_minutes, price := p.price,
    link := p.link, description := p.description,
    tags := p.tags, ingredients := p.ingredients }

/-- The `for attr, value in validated_data.items(): setattr(instance,
attr, value)` loop of `RecipeSerializer.update` after `tags` and
`ingredients` were popped: each present scalar key overwrites the field,
each absent key leaves it unchanged. -/
def applyScalarFields (r : Recipe) (v : ValidatedRecipeData) : Recipe :=
  { r with
    title := v.title.getD r.title,
    time_minutes := v.time_minutes.getD r.time_minutes,
    price := v.price.getD r.price,
    link := v.link.getD r.link,
    description := v.description.getD r.description }

/-- `instance.tags.clear()`. -/
def recipeClearTags (db : DB) (rid : Nat) : DB :=
  { db with recipes := db.recipes.map (fun r =>
      if r.id == rid then { r with tags := [] } else r) }

/-- `instance.ingredients.clear()`. -/
def recipeClearIngredients (db : DB) (rid : Nat) : DB :=
  { db with recipes := db.recipes.map (fun r =>
      if r.id == rid then { r with ingredients := [] } else r) }

/-- `RecipeSerializer.update(instance, validated_data)`: pop `tags` and
`ingredients`; when a key was present, clear the association and
get-or-create the listed items; then set the remaining scalar fields and
save. -/
def serializer_update (db : DB) (u : Nat) (rid : Nat) (v : ValidatedRecipeData) : DB :=
  let db1 := match v.tags with
    | some names => get_or_create_tags (recipeClearTags db rid) u names rid
    | none => db
  let db2 := match v.ingredients with
    | some names => get_or_create_ingredients (recipeClearIngredients db1 rid) u names rid
    | none => db1
  { db2 with recipes := db2.recipes.map (fun r =>
      if r.id == rid then applyScalarFields r v else r) }

/-- `RecipeSerializer.create(validated_data)` under
`perform_create`'s `serializer.save(user=self.request.user)`: pop `tags`
and `ingredients` (defaulting to empty), create the recipe row owned by
the authenticated user, then get-or-create and link the listed items.
Returns the new recipe's id with the new state. -/
def serializer_create (db : DB) (u : Nat) (v : ValidatedRecipeData) : Nat × DB :=
  let r : Recipe :=
    { id := db.nextRecipeId, user := u,
      title := v.title.getD "", time_minutes := v.time_minutes.getD 0,
      price := v.price.getD 0, description := v.description.getD "",
      link := v.link.getD "", image := none, tags := [], ingredients := [] }
  let db1 := { db with
               recipes := db.recipes ++ [r],
               nextRecipeId := db.nextRecipeId + 1 }
  let db2 := get_or_create_tags db1 u (v.tags.getD []) r.id
  let db3 := get_or_create_ingredients db2 u (v.ingredients.getD []) r.id
  (r.id, db3)

/-- A PATCH/PUT detail request (`UpdateModelMixin.update`): 404 with no
state change when `get_object` fails, otherwise run the serializer's
update with the validated payload and answer 200. -/
def recipeUpdateRequest (db : DB) (u : Nat) (pk : Nat) (p : RecipePayload) : Nat × DB :=
  match recipe_get_object db u pk with
  | some _ => (200, serializer_update db u pk (run_validation p))
  | none => (404, db)

/-! ## Table invariants -/

/-- At most one tag row per (user, name) pair. -/
def atMostOneTagPerUserName (db : DB) : Prop :=
  db.tags.Pairwise (fun a b => ¬(a.user = b.user ∧ a.name = b.name))

/-- At most one ingredient row per (user, name) pair. -/
def atMostOneIngredientPerUserName (db : DB) : Prop :=
  db.ingredients.Pairwise (fun a b => ¬(a.user = b.user ∧ a.name = b.name))

/-- The many-to-many tag list of the recipe with id `rid` (empty when no
such recipe exists). -/
def tagsOf (db : DB) (rid : Nat) : List Nat :=
  ((db.recipes.find? (fun r => r.id == rid)).map Recipe.tags).getD []

/-- The many-to-many ingredient list of the recipe with id `rid`. -/
def ingredientsOf (db : DB) (rid : Nat) : List Nat :=
  ((db.recipes.find? (fun r => r.id == rid)).map Recipe.ingredients).getD []

/-- Auxiliary: a recipe-row transformation that can change only the
linked-tags list; id, owner, every scalar field, the image and the
linked ingredients are intact. -/
def touchesOnlyTags (g : Recipe → Recipe) : Prop :=
  ∀ r, (g r).id = r.id ∧ (g r).user = r.user ∧ (g r).title = r.title ∧
    (g r).time_minutes = r.time_minutes ∧ (g r).price = r.price ∧
    (g r).description = r.description ∧ (g r).link = r.link ∧
    (g r).image = r.image ∧ (g r).ingredients = r.ingredients

/-- Auxiliary: a recipe-row transformation that can change only the
linked-ingredients list. -/
def touchesOnlyIngredients (g : Recipe → Recipe) : Prop :=
  ∀ r, (g r).id = r.id ∧ (g r).user = r.user ∧ (g r).title = r.title ∧
    (g r).time_minutes = r.time_minutes ∧ (g r).price = r.price ∧
    (g r).description = r.description ∧ (g r).link = r.link ∧
    (g r).image = r.image ∧ (g r).tags = r.tags

/-- A sample database for the concrete witnesses: user 1 owns recipe 1
(linked to tag 1 and ingredient 1) and the unlinked tag 3 and
ingredient 3; user 2 owns recipe 2, tag 2 and ingredient 2. -/
def dbW : DB :=
  { users := [⟨1, "one@example.com", "password1", "One"⟩,
              ⟨2, "two@example.com", "password2", "Two"⟩],
    recipes := [⟨1, 1, "Spaghetti", 5, 10, "", "", none, [1], [1]⟩,
                ⟨2, 2, "Pancakes", 6, 11, "", "", none, [2], [2]⟩],
    tags := [⟨1, 1, "Vegan"⟩, ⟨2, 2, "Fruity"⟩, ⟨3, 1, "Dessert"⟩],
    ingredients := [⟨1, 1, "Salt"⟩, ⟨2, 2, "Pepper"⟩, ⟨3, 1, "Onion"⟩],
    nextUserId := 3, nextRecipeId := 3, nextTagId := 4, nextIngredientId := 4 }

/-- The sample database with additional rows owned by user 2 (another
recipe, tag and ingredient): it differs from `dbW` only in another
user's rows. -/
def dbW2 : DB :=
  { dbW with
    recipes := dbW.recipes ++ [⟨3, 2, "Toast", 3, 2, "", "", none, [2], [2]⟩],
    tags := dbW.tags ++ [⟨4, 2, "Breakfast"⟩],
    ingredients := dbW.ingredients ++ [⟨4, 2, "Butter"⟩],
    nextRecipeId := 4, nextTagId := 5, nextIngredientId := 5 }

/-! # Theorems -/

/-! ## List helper lemmas -/

/-- `takeWhile` over `xs ++ y :: ys` stops exactly at `y` when all of `xs`
satisfies the predicate and `y` does not. -/
theorem takeWhile_append_cons {α : Type} (p : α → Bool) (xs ys : List α) (y : α)
    (hxs : ∀ x ∈ xs, p x = true) (hy : p y = false) :
    (xs ++ y :: ys).takeWhile p = xs := by
  induction xs with
  | nil => simp [List.takeWhile_cons, hy]
  | cons a xs ih =>
      have ha : p a = true := hxs a (by simp)
      simp only [List.cons_append, List.takeWhile_cons, ha]
      simp only [if_true, List.cons.injEq, true_and]
      exact ih (fun x hx => hxs x (by simp [hx]))

/-- `dropWhile` over `xs ++ y :: ys` drops exactly `xs` when all of `xs`
satisfies the predicate and `y` does not. -/
theorem dropWhile_append_cons {α : Type} (p : α → Bool) (xs ys : List α) (y : α)
    (hxs : ∀ x ∈ xs, p x = true) (hy : p y = false) :
    (xs ++ y :: ys).dropWhile p = y :: ys := by
  induction xs with
  | nil => simp [List.dropWhile_cons, hy]
  | cons a xs ih =>
      have ha : p a = true := hxs a (by simp)
      simp only [List.cons_append, List.dropWhile_cons, ha]
      simp only [if_true]
      exact ih (fun x hx => hxs x (by simp [hx]))

/-! ## C7: email normalization -/

/-- Splitting `local ++ "@" ++ domain` at the last `'@'` recovers the two
parts when the domain contains no `'@'`. -/
theorem rsplitAtSign_eq (l d : List Char) (hd : '@' ∉ d) :
    rsplitAtSign (l ++ '@' :: d) = some (l, d) := by
  unfold rsplitAtSign
  have hrev : (l ++ '@' :: d).reverse = d.reverse ++ '@' :: l.reverse := by
    simp
  rw [hrev]
  have hall : ∀ x ∈ d.reverse, (!(x = '@' : Bool)) = true := by
    intro x hx
    have : x ∈ d := List.mem_reverse.mp hx
    simp only [Bool.not_eq_true']
    exact decide_eq_false (fun he => hd (he ▸ this))
  have hat : (!(('@' : Char) = '@' : Bool)) = false := by simp
  rw [List.span_eq_take_drop,
      takeWhile_append_cons _ _ _ _ hall hat,
      dropWhile_append_cons _ _ _ _ hall hat]
  simp

/-- C7: for every non-empty email accepted by user creation, the stored
email is the input with the domain part (the substring after the `'@'`)
lowercased and the local part preserved unchanged; creating a user with
an empty email fails with a `ValueError`. -/
theorem user_email_normalized (l d : String) (hd : '@' ∉ d.data)
    (hne : l ++ "@" ++ d ≠ "") :
    manager_create_user (l ++ "@" ++ d) = some (l ++ "@" ++ lowerString d) ∧
    manager_create_user "" = none := by
  constructor
  · unfold manager_create_user
    rw [if_neg hne]
    unfold normalize_email
    have hdata : (l ++ "@" ++ d).data = l.data ++ '@' :: d.data := by
      simp [String.data_append]
    rw [hdata, rsplitAtSign_eq _ _ hd]
    have : (l ++ "@" ++ lowerString d).data = l.data ++ '@' :: d.data.map Char.toLower := by
      simp [String.data_append, lowerString]
    exact congrArg some (String.ext (by rw [this]))
  · rfl

/-- C7 witness: the test-suite sample `Test2@Example.com` normalizes to
`Test2@example.com`, and the empty email is rejected. -/
theorem user_email_normalized_witness :
    manager_create_user ("Test2" ++ "@" ++ "Example.com") =
      some ("Test2" ++ "@" ++ lowerString "Example.com") ∧
    manager_create_user "" = none :=
  user_email_normalized "Test2" "Example.com" (by decide) (by decide)

/-! ## C4: ingredient routes -/

/-- C4: the recipe app's router does not expose ingredient routes: the
reverse names `ingredient-list` and `ingredient-detail` are not among the
names generated from the registrations in `recipe/urls.py` (only the
recipe and tag view sets are registered), so
`reverse("recipe:ingredient-list")` cannot resolve and the claimed
ingredient CRUD endpoints do not exist. -/
theorem ingredient_routes_missing :
    "ingredient-list" ∉ routerRouteNames ∧
    "ingredient-detail" ∉ routerRouteNames ∧
    routerRouteNames = ["recipe-list", "recipe-detail", "tag-list", "tag-detail"] := by
  refine ⟨?_, ?_, ?_⟩ <;> decide

/-! ## C10: tag and ingredient list operations ignore query parameters -/

/-- Membership in the tag list endpoint's response. -/
theorem mem_tag_list (db : DB) (u : Nat) (ps : List (String × String)) (t : Tag) :
    t ∈ tag_list db u ps ↔ t ∈ db.tags ∧ t.user = u := by
  unfold tag_list
  rw [List.mem_insertionSort, List.mem_filter]
  simp

/-- Membership in the ingredient list endpoint's response. -/
theorem mem_ingredient_list (db : DB) (u : Nat) (ps : List (String × String))
    (i : Ingredient) :
    i ∈ ingredient_list db u ps ↔ i ∈ db.ingredients ∧ i.user = u := by
  unfold ingredient_list
  rw [List.mem_insertionSort, List.mem_filter]
  simp

/-- C10: the tag and ingredient list operations return all of the
authenticated user's tags (ingredients) ordered by name descending,
whatever the query parameters are; in particular `assigned_only=1` has
no effect, and rows not linked to any recipe are still returned. -/
theorem attr_list_ignores_query_params (db : DB) (u : Nat)
    (ps ps2 : List (String × String)) :
    (tag_list db u ps = tag_list db u ps2 ∧
     ingredient_list db u ps = ingredient_list db u ps2) ∧
    (∀ t, t ∈ tag_list db u ps ↔ t ∈ db.tags ∧ t.user = u) ∧
    (∀ i, i ∈ ingredient_list db u ps ↔ i ∈ db.ingredients ∧ i.user = u) ∧
    List.Sorted tagNameDesc (tag_list db u ps) ∧
    List.Sorted ingredientNameDesc (ingredient_list db u ps) ∧
    (∀ t ∈ db.tags, t.user = u → t ∈ tag_list db u [("assigned_only", "1")]) ∧
    (∀ i ∈ db.ingredients, i.user = u →
       i ∈ ingredient_list db u [("assigned_only", "1")]) := by
  refine ⟨⟨rfl, rfl⟩, mem_tag_list db u ps, mem_ingredient_list db u ps,
    List.sorted_insertionSort tagNameDesc _,
    List.sorted_insertionSort ingredientNameDesc _, ?_, ?_⟩
  · intro t ht hu
    exact (mem_tag_list db u _ t).mpr ⟨ht, hu⟩
  · intro i hi hu
    exact (mem_ingredient_list db u _ i).mpr ⟨hi, hu⟩

/-- C10 witness: in the sample database, user 1's unlinked tag 3 and
unlinked ingredient 3 are returned by the list endpoints even under
`assigned_only=1`. -/
theorem attr_list_ignores_query_params_witness :
    (⟨3, 1, "Dessert"⟩ : Tag) ∈ tag_list dbW 1 [("assigned_only", "1")] ∧
    (⟨3, 1, "Onion"⟩ : Ingredient) ∈ ingredient_list dbW 1 [("assigned_only", "1")] := by
  have h := attr_list_ignores_query_params dbW 1 [("assigned_only", "1")] []
  exact ⟨h.2.2.2.2.2.1 ⟨3, 1, "Dessert"⟩ (by decide) (by decide),
         h.2.2.2.2.2.2 ⟨3, 1, "Onion"⟩ (by decide) (by decide)⟩

/-! ## C1: per-user queryset scoping -/

/-- Filtering duplicates-by-join commutes with an elementwise filter when
every produced row equals its source row. -/
theorem filter_flatMap_self {α : Type} (l : List α) (f : α → List α) (p : α → Bool)
    (hf : ∀ x, ∀ y ∈ f x, y = x) :
    (l.flatMap f).filter p = (l.filter p).flatMap f := by
  induction l with
  | nil => rfl
  | cons r rs ih =>
    rw [List.flatMap_cons, List.filter_append, ih, List.filter_cons]
    have h1 : (f r).filter p = if p r = true then f r else [] := by
      have hcongr : ∀ x ∈ f r, p x = (fun _ => p r) x := by
        intro x hx
        rw [hf r x hx]
      rw [List.filter_congr hcongr]
      cases hp : p r <;> simp
    rw [h1]
    cases hp : p r
    · simp [hp]
    · simp [hp, List.flatMap_cons]

/-- The tag-id join filter commutes with a row-level filter. -/
theorem filterByTagIds_filter_comm (rs : List Recipe) (ids : List Int)
    (p : Recipe → Bool) :
    (filterByTagIds rs ids).filter p = filterByTagIds (rs.filter p) ids := by
  unfold filterByTagIds
  apply filter_flatMap_self
  intro x y hy
  rcases List.mem_map.mp hy with ⟨_, _, rfl⟩
  rfl

/-- The ingredient-id join filter commutes with a row-level filter. -/
theorem filterByIngredientIds_filter_comm (rs : List Recipe) (ids : List Int)
    (p : Recipe → Bool) :
    (filterByIngredientIds rs ids).filter p = filterByIngredientIds (rs.filter p) ids := by
  unfold filterByIngredientIds
  apply filter_flatMap_self
  intro x y hy
  rcases List.mem_map.mp hy with ⟨_, _, rfl⟩
  rfl

/-- Evaluation of the tags step on an absent parameter. -/
theorem applyTagFilter_none (rows : List Recipe) :
    applyTagFilter rows none = some rows := rfl

/-- Evaluation of the tags step on a present empty value. -/
theorem applyTagFilter_empty (rows : List Recipe) :
    applyTagFilter rows (some "") = some rows := rfl

/-- Evaluation of the tags step on a present non-empty value. -/
theorem applyTagFilter_some (rows : List Recipe) (s : String) (hs : s ≠ "") :
    applyTagFilter rows (some s) = (params_to_ints s).map (filterByTagIds rows) := by
  unfold applyTagFilter
  exact if_neg hs

/-- Evaluation of the ingredients step on an absent parameter. -/
theorem applyIngredientFilter_none (rows : List Recipe) :
    applyIngredientFilter rows none = some rows := rfl

/-- Evaluation of the ingredients step on a present empty value. -/
theorem applyIngredientFilter_empty (rows : List Recipe) :
    applyIngredientFilter rows (some "") = some rows := rfl

/-- Evaluation of the ingredients step on a present non-empty value. -/
theorem applyIngredientFilter_some (rows : List Recipe) (s : String) (hs : s ≠ "") :
    applyIngredientFilter rows (some s) =
      (params_to_ints s).map (filterByIngredientIds rows) := by
  unfold applyIngredientFilter
  exact if_neg hs

/-- The tags query-parameter step commutes with a row-level filter. -/
theorem applyTagFilter_filter_comm (q : List Recipe) (p : Option String)
    (pu : Recipe → Bool) :
    (applyTagFilter q p).map (fun l => l.filter pu) = applyTagFilter (q.filter pu) p := by
  match p with
  | none => rfl
  | some s =>
    by_cases hs : s = ""
    · rw [hs, applyTagFilter_empty, applyTagFilter_empty]
      rfl
    · rw [applyTagFilter_some _ _ hs, applyTagFilter_some _ _ hs]
      cases params_to_ints s with
      | none => rfl
      | some ids => simp [filterByTagIds_filter_comm]

/-- The ingredients query-parameter step commutes with a row-level
filter. -/
theorem applyIngredientFilter_filter_comm (q : List Recipe) (p : Option String)
    (pu : Recipe → Bool) :
    (applyIngredientFilter q p).map (fun l => l.filter pu) =
      applyIngredientFilter (q.filter pu) p := by
  match p with
  | none => rfl
  | some s =>
    by_cases hs : s = ""
    · rw [hs, applyIngredientFilter_empty, applyIngredientFilter_empty]
      rfl
    · rw [applyIngredientFilter_some _ _ hs, applyIngredientFilter_some _ _ hs]
      cases params_to_ints s with
      | none => rfl
      | some ids => simp [filterByIngredientIds_filter_comm]

/-- `RecipeViewSet.get_queryset` factors through the requesting user's
rows: the `filter(user=...)` at the end of the chain may equivalently be
applied to the recipe table first. -/
theorem recipe_queryset_factored (db : DB) (u : Nat) (tp ip : Option String) :
    recipe_queryset db u tp ip =
      recipeListPipeline (db.recipes.filter (fun r => r.user == u)) tp ip := by
  unfold recipe_queryset recipeListPipeline
  cases h1 : applyTagFilter db.recipes tp with
  | none =>
    have h1' : applyTagFilter (db.recipes.filter (fun r => r.user == u)) tp = none := by
      rw [← applyTagFilter_filter_comm, h1]
      rfl
    rw [h1']
    rfl
  | some q1 =>
    have h1' : applyTagFilter (db.recipes.filter (fun r => r.user == u)) tp
        = some (q1.filter (fun r => r.user == u)) := by
      rw [← applyTagFilter_filter_comm, h1]
      rfl
    rw [h1']
    simp only [Option.some_bind]
    cases h2 : applyIngredientFilter q1 ip with
    | none =>
      have h2' : applyIngredientFilter (q1.filter (fun r => r.user == u)) ip = none := by
        rw [← applyIngredientFilter_filter_comm, h2]
        rfl
      rw [h2']
      rfl
    | some q2 =>
      have h2' : applyIngredientFilter (q1.filter (fun r => r.user == u)) ip
          = some (q2.filter (fun r => r.user == u)) := by
        rw [← applyIngredientFilter_filter_comm, h2]
        rfl
      rw [h2']
      rfl

/-- Membership after the tag-id join: the row is a source row with a
linked tag among the requested ids. -/
theorem mem_filterByTagIds (rs : List Recipe) (ids : List Int) (r : Recipe) :
    r ∈ filterByTagIds rs ids ↔ r ∈ rs ∧ ∃ tid ∈ r.tags, Int.ofNat tid ∈ ids := by
  unfold filterByTagIds
  rw [List.mem_flatMap]
  constructor
  · rintro ⟨a, ha, hr⟩
    rcases List.mem_map.mp hr with ⟨tid, htid, rfl⟩
    rcases List.mem_filter.mp htid with ⟨hmem, hdec⟩
    exact ⟨ha, tid, hmem, of_decide_eq_true hdec⟩
  · rintro ⟨hr, tid, htid, hin⟩
    exact ⟨r, hr, List.mem_map.mpr
      ⟨tid, List.mem_filter.mpr ⟨htid, decide_eq_true hin⟩, rfl⟩⟩

/-- Membership after the ingredient-id join. -/
theorem mem_filterByIngredientIds (rs : List Recipe) (ids : List Int) (r : Recipe) :
    r ∈ filterByIngredientIds rs ids ↔
      r ∈ rs ∧ ∃ iid ∈ r.ingredients, Int.ofNat iid ∈ ids := by
  unfold filterByIngredientIds
  rw [List.mem_flatMap]
  constructor
  · rintro ⟨a, ha, hr⟩
    rcases List.mem_map.mp hr with ⟨iid, hiid, rfl⟩
    rcases List.mem_filter.mp hiid with ⟨hmem, hdec⟩
    exact ⟨ha, iid, hmem, of_decide_eq_true hdec⟩
  · rintro ⟨hr, iid, hiid, hin⟩
    exact ⟨r, hr, List.mem_map.mpr
      ⟨iid, List.mem_filter.mpr ⟨hiid, decide_eq_true hin⟩, rfl⟩⟩

/-- Rows surviving the tags query-parameter step come from the input
rows. -/
theorem mem_applyTagFilter (rows : List Recipe) (p : Option String) (q : List Recipe)
    (h : applyTagFilter rows p = some q) : ∀ r ∈ q, r ∈ rows := by
  match p with
  | none =>
    rw [applyTagFilter_none] at h
    cases h
    intro r hr
    exact hr
  | some s =>
    by_cases hs : s = ""
    · rw [hs, applyTagFilter_empty] at h
      cases h
      intro r hr
      exact hr
    · rw [applyTagFilter_some _ _ hs] at h
      cases hp : params_to_ints s with
      | none => rw [hp] at h; cases h
      | some ids =>
        rw [hp] at h
        cases h
        intro r hr
        exact ((mem_filterByTagIds rows ids r).mp hr).1

/-- Rows surviving the ingredients query-parameter step come from the
input rows. -/
theorem mem_applyIngredientFilter (rows : List Recipe) (p : Option String)
    (q : List Recipe) (h : applyIngredientFilter rows p = some q) :
    ∀ r ∈ q, r ∈ rows := by
  match p with
  | none =>
    rw [applyIngredientFilter_none] at h
    cases h
    intro r hr
    exact hr
  | some s =>
    by_cases hs : s = ""
    · rw [hs, applyIngredientFilter_empty] at h
      cases h
      intro r hr
      exact hr
    · rw [applyIngredientFilter_some _ _ hs] at h
      cases hp : params_to_ints s with
      | none => rw [hp] at h; cases h
      | some ids =>
        rw [hp] at h
        cases h
        intro r hr
        exact ((mem_filterByIngredientIds rows ids r).mp hr).1

/-- Rows of a successful factored pipeline response come from the scoped
input rows. -/
theorem mem_recipeListPipeline (rows : List Recipe) (tp ip : Option String)
    (l : List Recipe) (h : recipeListPipeline rows tp ip = some l) :
    ∀ r ∈ l, r ∈ rows := by
  unfold recipeListPipeline at h
  cases h1 : applyTagFilter rows tp with
  | none => rw [h1] at h; cases h
  | some q1 =>
    rw [h1] at h
    simp only [Option.some_bind] at h
    cases h2 : applyIngredientFilter q1 ip with
    | none => rw [h2] at h; cases h
    | some q2 =>
      rw [h2] at h
      simp only [Option.map_some'] at h
      cases h
      intro r hr
      rw [List.mem_dedup, List.mem_insertionSort] at hr
      exact mem_applyTagFilter rows tp q1 h1 r (mem_applyIngredientFilter q1 ip q2 h2 r hr)

/-- C1: every object in an authenticated list response on the recipe,
tag or ingredient endpoints is owned by the requesting user, and each
response is a function of the requesting user's rows alone: two database
states agreeing on the user's rows (so differing only in other users'
rows) produce identical responses. -/
theorem per_user_scoping (db db2 : DB) (u : Nat) (tp ip : Option String)
    (ps : List (String × String)) :
    (∀ l, recipe_queryset db u tp ip = some l → ∀ r ∈ l, r.user = u) ∧
    (∀ t ∈ tag_list db u ps, t.user = u) ∧
    (∀ i ∈ ingredient_list db u ps, i.user = u) ∧
    (db.recipes.filter (fun r => r.user == u) = db2.recipes.filter (fun r => r.user == u) →
       recipe_queryset db u tp ip = recipe_queryset db2 u tp ip) ∧
    (db.tags.filter (fun t => t.user == u) = db2.tags.filter (fun t => t.user == u) →
       tag_list db u ps = tag_list db2 u ps) ∧
    (db.ingredients.filter (fun i => i.user == u) =
        db2.ingredients.filter (fun i => i.user == u) →
       ingredient_list db u ps = ingredient_list db2 u ps) := by
  refine ⟨?_, ?_, ?_, ?_, ?_, ?_⟩
  · intro l hl r hr
    rw [recipe_queryset_factored] at hl
    have := mem_recipeListPipeline _ tp ip l hl r hr
    have := (List.mem_filter.mp this).2
    simpa using this
  · intro t ht
    exact ((mem_tag_list db u ps t).mp ht).2
  · intro i hi
    exact ((mem_ingredient_list db u ps i).mp hi).2
  · intro h
    rw [recipe_queryset_factored, recipe_queryset_factored, h]
  · intro h
    unfold tag_list
    rw [h]
  · intro h
    unfold ingredient_list
    rw [h]

/-- C1 witness: adding rows owned by user 2 (`dbW2` versus `dbW`) leaves
user 1's recipe, tag and ingredient list responses unchanged, and the
rows of user 1's recipe response are owned by user 1. -/
theorem per_user_scoping_witness :
    recipe_queryset dbW 1 none none = recipe_queryset dbW2 1 none none ∧
    tag_list dbW 1 [] = tag_list dbW2 1 [] ∧
    ingredient_list dbW 1 [] = ingredient_list dbW2 1 [] := by
  have h := per_user_scoping dbW dbW2 1 none none []
  exact ⟨h.2.2.2.1 (by decide), h.2.2.2.2.1 (by decide), h.2.2.2.2.2 (by decide)⟩

/-! ## C5: comma-separated id filtering of the recipe list -/

/-- Membership in the user-scoped, sorted, deduplicated tail of the
queryset chain. -/
theorem mem_dedup_sort_filter (rows : List Recipe) (u : Nat) (r : Recipe) :
    r ∈ List.dedup (List.insertionSort recipeIdDesc
        (rows.filter (fun x => x.user == u))) ↔
      r ∈ rows ∧ r.user = u := by
  rw [List.mem_dedup, List.mem_insertionSort, List.mem_filter]
  simp

/-- Evaluation of the recipe queryset without filter parameters. -/
theorem recipe_queryset_none_none (db : DB) (u : Nat) :
    recipe_queryset db u none none =
      some (List.dedup (List.insertionSort recipeIdDesc
        (db.recipes.filter (fun r => r.user == u)))) := rfl

/-- Evaluation of the recipe queryset under a parsed tags parameter. -/
theorem recipe_queryset_tags_eval (db : DB) (u : Nat) (s : String) (ids : List Int)
    (hs : s ≠ "") (hp : params_to_ints s = some ids) :
    recipe_queryset db u (some s) none =
      some (List.dedup (List.insertionSort recipeIdDesc
        ((filterByTagIds db.recipes ids).filter (fun r => r.user == u)))) := by
  unfold recipe_queryset
  rw [applyTagFilter_some _ _ hs, hp]
  rfl

/-- Evaluation of the recipe queryset under a parsed ingredients
parameter. -/
theorem recipe_queryset_ingredients_eval (db : DB) (u : Nat) (s : String)
    (ids : List Int) (hs : s ≠ "") (hp : params_to_ints s = some ids) :
    recipe_queryset db u none (some s) =
      some (List.dedup (List.insertionSort recipeIdDesc
        ((filterByIngredientIds db.recipes ids).filter (fun r => r.user == u)))) := by
  unfold recipe_queryset
  rw [applyTagFilter_none, Option.some_bind, applyIngredientFilter_some _ _ hs, hp]
  rfl

/-- C5 (amended): when the `tags` (resp. `ingredients`) query parameter
is present and non-empty, its value is split on commas and each piece is
converted to an integer — a conversion failure propagating as an error —
and the result contains exactly the requesting user's recipes linked to
at least one of those ids, without duplicates; when the parameter is
absent, or present with an empty value (which the code treats like an
absent one), no filter is applied. -/
theorem recipe_filter_params (db : DB) (u : Nat) (s : String) (ids : List Int)
    (hs : s ≠ "") (hp : params_to_ints s = some ids) :
    (∃ l, recipe_queryset db u none none = some l ∧ l.Nodup ∧
       ∀ r, r ∈ l ↔ r ∈ db.recipes ∧ r.user = u) ∧
    (recipe_queryset db u (some "") none = recipe_queryset db u none none ∧
     recipe_queryset db u none (some "") = recipe_queryset db u none none) ∧
    (∃ l, recipe_queryset db u (some s) none = some l ∧ l.Nodup ∧
       ∀ r, r ∈ l ↔ r ∈ db.recipes ∧ r.user = u ∧
         ∃ tid ∈ r.tags, Int.ofNat tid ∈ ids) ∧
    (∃ l, recipe_queryset db u none (some s) = some l ∧ l.Nodup ∧
       ∀ r, r ∈ l ↔ r ∈ db.recipes ∧ r.user = u ∧
         ∃ iid ∈ r.ingredients, Int.ofNat iid ∈ ids) ∧
    (∀ s2, s2 ≠ "" → params_to_ints s2 = none →
       recipe_queryset db u (some s2) none = none) := by
  refine ⟨?_, ⟨?_, ?_⟩, ?_, ?_, ?_⟩
  · refine ⟨_, recipe_queryset_none_none db u, List.nodup_dedup _, ?_⟩
    intro r
    exact mem_dedup_sort_filter db.recipes u r
  · simp only [recipe_queryset, applyTagFilter_empty, applyTagFilter_none]
  · simp only [recipe_queryset, applyTagFilter_none, Option.some_bind,
      applyIngredientFilter_empty, applyIngredientFilter_none]
  · refine ⟨_, recipe_queryset_tags_eval db u s ids hs hp, List.nodup_dedup _, ?_⟩
    intro r
    rw [mem_dedup_sort_filter, mem_filterByTagIds]
    constructor
    · rintro ⟨⟨hmem, hlink⟩, hu⟩
      exact ⟨hmem, hu, hlink⟩
    · rintro ⟨hmem, hu, hlink⟩
      exact ⟨⟨hmem, hlink⟩, hu⟩
  · refine ⟨_, recipe_queryset_ingredients_eval db u s ids hs hp,
      List.nodup_dedup _, ?_⟩
    intro r
    rw [mem_dedup_sort_filter, mem_filterByIngredientIds]
    constructor
    · rintro ⟨⟨hmem, hlink⟩, hu⟩
      exact ⟨hmem, hu, hlink⟩
    · rintro ⟨hmem, hu, hlink⟩
      exact ⟨⟨hmem, hlink⟩, hu⟩
  · intro s2 hs2 hp2
    unfold recipe_queryset
    rw [applyTagFilter_some _ _ hs2, hp2]
    rfl

/-- C5 counterexample: the claim's "every present value is processed by
the split-and-convert step" fails for a present empty value.  On `dbW`
with `?tags=` the code ignores the parameter and returns user 1's
recipes, while processing the empty value (as the claim states) would
fail its integer conversion and error out. -/
theorem recipe_filter_params_counterexample :
    recipe_queryset dbW 1 (some "") none ≠
      recipe_queryset_claimed dbW 1 (some "") none ∧
    recipe_queryset dbW 1 (some "") none =
      some [⟨1, 1, "Spaghetti", 5, 10, "", "", none, [1], [1]⟩] ∧
    recipe_queryset_claimed dbW 1 (some "") none = none := by
  refine ⟨?_, ?_, ?_⟩ <;> decide

/-- C5 witness: filtering user 1's recipes of `dbW` by `?tags=1`. -/
theorem recipe_filter_params_witness :
    ∃ l, recipe_queryset dbW 1 (some "1") none = some l ∧ l.Nodup ∧
      ∀ r, r ∈ l ↔ r ∈ dbW.recipes ∧ r.user = 1 ∧
        ∃ tid ∈ r.tags, Int.ofNat tid ∈ [(1 : Int)] :=
  (recipe_filter_params dbW 1 "1" [1] (by decide) (by decide)).2.2.1

/-! ## C2: cross-user detail requests answer 404 and change nothing -/

/-- C2: an authenticated retrieve, update or delete aimed at a recipe
owned by a different user answers 404 Not Found, the database state is
unchanged, and the targeted recipe still exists with all its fields
intact. -/
theorem cross_user_detail_is_404 (db : DB) (u pk : Nat) (p : RecipePayload)
    (hother : ∀ r ∈ db.recipes, r.id = pk → r.user ≠ u)
    (hex : ∃ r ∈ db.recipes, r.id = pk) :
    recipe_get_object db u pk = none ∧
    recipeRetrieveRequest db u pk = (404, db) ∧
    recipeUpdateRequest db u pk p = (404, db) ∧
    recipeDestroyRequest db u pk = (404, db) ∧
    ∃ r ∈ (recipeDestroyRequest db u pk).2.recipes, r.id = pk := by
  have hobj : recipe_get_object db u pk = none := by
    unfold recipe_get_object
    rw [recipe_queryset_none_none]
    apply List.find?_eq_none.mpr
    intro r hr hbeq
    have hmem := (mem_dedup_sort_filter db.recipes u r).mp hr
    exact hother r hmem.1 (by simpa using hbeq) hmem.2
  refine ⟨hobj, ?_, ?_, ?_, ?_⟩
  · unfold recipeRetrieveRequest
    rw [hobj]
  · unfold recipeUpdateRequest
    rw [hobj]
  · unfold recipeDestroyRequest
    rw [hobj]
  · unfold recipeDestroyRequest
    rw [hobj]
    exact hex

/-- C2 witness: user 1 targeting user 2's recipe (id 2) in `dbW` gets
404 from retrieve, update and delete, with the state unchanged. -/
theorem cross_user_detail_is_404_witness :
    recipeRetrieveRequest dbW 1 2 = (404, dbW) ∧
    recipeUpdateRequest dbW 1 2
      ⟨some "Hack", none, none, none, none, none, none, some 1⟩ = (404, dbW) ∧
    recipeDestroyRequest dbW 1 2 = (404, dbW) := by
  have h := cross_user_detail_is_404 dbW 1 2
    ⟨some "Hack", none, none, none, none, none, none, some 1⟩
    (by decide) (by decide)
  exact ⟨h.2.1, h.2.2.1, h.2.2.2.1⟩

/-! ## Lemmas on get-or-create (tags side) -/

/-- A found tag row is returned as is, with the database unchanged. -/
theorem tag_get_or_create_found (db : DB) (u : Nat) (name : String) (t : Tag)
    (h : findTagRow db u name = some t) : tag_get_or_create db u name = (t, db) := by
  unfold tag_get_or_create
  rw [h]

/-- A found tag row matches the lookup's user and name. -/
theorem findTagRow_props (db : DB) (u : Nat) (name : String) (t : Tag)
    (h : findTagRow db u name = some t) :
    t.user = u ∧ t.name = name ∧ t ∈ db.tags := by
  have hp := List.find?_some h
  have hm := List.mem_of_find?_eq_some h
  simp only [Bool.and_eq_true, beq_iff_eq] at hp
  exact ⟨hp.1, hp.2, hm⟩

/-- When no row matches, a fresh row owned by the requesting user is
inserted. -/
theorem tag_get_or_create_not_found (db : DB) (u : Nat) (name : String)
    (h : findTagRow db u name = none) :
    tag_get_or_create db u name =
      (⟨db.nextTagId, u, name⟩,
       { db with tags := db.tags ++ [⟨db.nextTagId, u, name⟩],
                 nextTagId := db.nextTagId + 1 }) := by
  unfold tag_get_or_create
  rw [h]

/-- The returned tag row is always owned by the requesting user. -/
theorem tag_get_or_create_user (db : DB) (u : Nat) (name : String) :
    (tag_get_or_create db u name).1.user = u := by
  cases h : findTagRow db u name with
  | none => rw [tag_get_or_create_not_found db u name h]
  | some t =>
    rw [tag_get_or_create_found db u name t h]
    exact (findTagRow_props db u name t h).1

/-- The returned tag row carries the requested name. -/
theorem tag_get_or_create_name (db : DB) (u : Nat) (name : String) :
    (tag_get_or_create db u name).1.name = name := by
  cases h : findTagRow db u name with
  | none => rw [tag_get_or_create_not_found db u name h]
  | some t =>
    rw [tag_get_or_create_found db u name t h]
    exact (findTagRow_props db u name t h).2.1

/-- The returned tag row is in the resulting tag table. -/
theorem tag_get_or_create_mem (db : DB) (u : Nat) (name : String) :
    (tag_get_or_create db u name).1 ∈ (tag_get_or_create db u name).2.tags := by
  cases h : findTagRow db u name with
  | none =>
    rw [tag_get_or_create_not_found db u name h]
    simp
  | some t =>
    rw [tag_get_or_create_found db u name t h]
    exact (findTagRow_props db u name t h).2.2

/-- The resulting tag table extends the old one, any new row being owned
by the requesting user with the requested name. -/
theorem tag_get_or_create_table (db : DB) (u : Nat) (name : String) :
    ∃ ext, (tag_get_or_create db u name).2.tags = db.tags ++ ext ∧
      ∀ t ∈ ext, t.user = u ∧ t.name = name := by
  cases h : findTagRow db u name with
  | none =>
    rw [tag_get_or_create_not_found db u name h]
    exact ⟨[⟨db.nextTagId, u, name⟩], rfl, by simp⟩
  | some t =>
    rw [tag_get_or_create_found db u name t h]
    exact ⟨[], by simp, by simp⟩

/-- Get-or-create leaves the recipe table untouched. -/
theorem tag_get_or_create_recipes (db : DB) (u : Nat) (name : String) :
    (tag_get_or_create db u name).2.recipes = db.recipes := by
  cases h : findTagRow db u name with
  | none => rw [tag_get_or_create_not_found db u name h]
  | some t => rw [tag_get_or_create_found db u name t h]

/-- Get-or-create of a tag leaves the ingredient table untouched. -/
theorem tag_get_or_create_ingredient_table (db : DB) (u : Nat) (name : String) :
    (tag_get_or_create db u name).2.ingredients = db.ingredients := by
  cases h : findTagRow db u name with
  | none => rw [tag_get_or_create_not_found db u name h]
  | some t => rw [tag_get_or_create_found db u name t h]

/-- The lookup only reads the tag table. -/
theorem findTagRow_congr (db db2 : DB) (u : Nat) (name : String)
    (h : db.tags = db2.tags) : findTagRow db u name = findTagRow db2 u name := by
  unfold findTagRow
  rw [h]

/-- `find?` by id over a mapped recipe list, when the map preserves ids. -/
theorem find?_map_id (l : List Recipe) (g : Recipe → Recipe)
    (hg : ∀ r, (g r).id = r.id) (rid : Nat) :
    (l.map g).find? (fun r => r.id == rid) =
      (l.find? (fun r => r.id == rid)).map g := by
  rw [List.find?_map]
  have hfun : ((fun r => r.id == rid) ∘ g) = (fun r : Recipe => r.id == rid) :=
    funext fun r => by simp [Function.comp, hg r]
  rw [hfun]

/-- The id-preserving update `recipeAddTag` keeps every recipe's id. -/
theorem recipeAddTag_id (rid tid : Nat) (r : Recipe) :
    (if r.id == rid then
       (if r.tags.contains tid then r else { r with tags := r.tags ++ [tid] })
     else r).id = r.id := by
  by_cases h : (r.id == rid) = true
  · rw [if_pos h]
    by_cases hc : r.tags.contains tid = true
    · rw [if_pos hc]
    · rw [if_neg hc]
  · rw [if_neg h]

/-- Linked tag ids after `recipe.tags.add`: each is an old link or the
added id; old links persist; and when the recipe exists the added id is
linked. -/
theorem tagsOf_addTag (db : DB) (rid tid : Nat) :
    (∀ x ∈ tagsOf (recipeAddTag db rid tid) rid, x ∈ tagsOf db rid ∨ x = tid) ∧
    (∀ x ∈ tagsOf db rid, x ∈ tagsOf (recipeAddTag db rid tid) rid) ∧
    ((db.recipes.find? (fun r => r.id == rid)).isSome →
       tid ∈ tagsOf (recipeAddTag db rid tid) rid) := by
  unfold recipeAddTag tagsOf
  simp only
  rw [find?_map_id _ _ (recipeAddTag_id rid tid) rid]
  cases hf : db.recipes.find? (fun r => r.id == rid) with
  | none => simp
  | some r =>
    have hr : (r.id == rid) = true := by simpa using List.find?_some hf
    simp only [Option.map_some', Option.getD_some, if_pos hr]
    by_cases hc : r.tags.contains tid = true
    · rw [if_pos hc]
      refine ⟨fun x hx => Or.inl hx, fun x hx => hx, fun _ => ?_⟩
      exact List.elem_iff.mp hc
    · rw [if_neg hc]
      refine ⟨?_, ?_, ?_⟩
      · intro x hx
        rcases List.mem_append.mp hx with h | h
        · exact Or.inl h
        · exact Or.inr (by simpa using h)
      · intro x hx
        exact List.mem_append.mpr (Or.inl hx)
      · intro _
        exact List.mem_append.mpr (Or.inr (by simp))

/-- `recipe.tags.add` leaves the tag, ingredient and user tables
unchanged. -/
theorem recipeAddTag_tables (db : DB) (rid tid : Nat) :
    (recipeAddTag db rid tid).tags = db.tags ∧
    (recipeAddTag db rid tid).ingredients = db.ingredients := ⟨rfl, rfl⟩

/-- One loop iteration leaves the tag table exactly as get-or-create
left it (`recipe.tags.add` does not touch it). -/
theorem step_tag_table (db : DB) (u rid : Nat) (name : String) :
    (get_or_create_tag_step u rid db name).tags =
      (tag_get_or_create db u name).2.tags := rfl

/-- The loop only appends to the tag table, every appended row being the
requesting user's and named by the payload. -/
theorem fold_tag_table (u rid : Nat) (names : List String) (db : DB) :
    ∃ ext, (get_or_create_tags db u names rid).tags = db.tags ++ ext ∧
      ∀ t ∈ ext, t.user = u ∧ t.name ∈ names := by
  induction names generalizing db with
  | nil => exact ⟨[], by simp [get_or_create_tags], by simp⟩
  | cons n ns ih =>
    rcases ih (get_or_create_tag_step u rid db n) with ⟨ext2, h2, hp2⟩
    rcases tag_get_or_create_table db u n with ⟨ext1, h1, hp1⟩
    refine ⟨ext1 ++ ext2, ?_, ?_⟩
    · show (get_or_create_tags (get_or_create_tag_step u rid db n) u ns rid).tags = _
      rw [h2, step_tag_table, h1, List.append_assoc]
    · intro t ht
      rcases List.mem_append.mp ht with h | h
      · refine ⟨(hp1 t h).1, ?_⟩
        rw [(hp1 t h).2]
        exact List.mem_cons_self n ns
      · exact ⟨(hp2 t h).1, List.mem_cons_of_mem n (hp2 t h).2⟩

/-- Get-or-create preserves the at-most-one-row-per-(user, name)
invariant of the tag table. -/
theorem tag_get_or_create_inv (db : DB) (u : Nat) (name : String)
    (h : atMostOneTagPerUserName db) :
    atMostOneTagPerUserName (tag_get_or_create db u name).2 := by
  cases hf : findTagRow db u name with
  | some t =>
    rw [tag_get_or_create_found db u name t hf]
    exact h
  | none =>
    rw [tag_get_or_create_not_found db u name hf]
    unfold atMostOneTagPerUserName at h ⊢
    simp only
    rw [List.pairwise_append]
    refine ⟨h, by simp, ?_⟩
    intro a ha b hb
    simp only [List.mem_singleton] at hb
    subst hb
    unfold findTagRow at hf
    have hnone := List.find?_eq_none.mp hf a ha
    simp only [Bool.and_eq_true, beq_iff_eq] at hnone
    intro hcon
    exact hnone ⟨hcon.1, hcon.2⟩

/-- One loop iteration preserves the tag-table invariant. -/
theorem step_tag_inv (db : DB) (u rid : Nat) (name : String)
    (h : atMostOneTagPerUserName db) :
    atMostOneTagPerUserName (get_or_create_tag_step u rid db name) :=
  tag_get_or_create_inv db u name h

/-- The whole loop preserves the tag-table invariant. -/
theorem fold_tag_inv (u rid : Nat) (names : List String) (db : DB)
    (h : atMostOneTagPerUserName db) :
    atMostOneTagPerUserName (get_or_create_tags db u names rid) := by
  induction names generalizing db with
  | nil => exact h
  | cons n ns ih => exact ih _ (step_tag_inv db u rid n h)

/-- A found name makes the loop iteration a no-op on the tag table. -/
theorem step_tag_noop (db : DB) (u rid : Nat) (name : String)
    (h : (findTagRow db u name).isSome = true) :
    (get_or_create_tag_step u rid db name).tags = db.tags := by
  rcases Option.isSome_iff_exists.mp h with ⟨t, ht⟩
  rw [step_tag_table, tag_get_or_create_found db u name t ht]

/-- When every payload name already has a row, the loop leaves the tag
table unchanged. -/
theorem fold_tag_noop (u rid : Nat) (names : List String) (db : DB)
    (h : ∀ n ∈ names, (findTagRow db u n).isSome = true) :
    (get_or_create_tags db u names rid).tags = db.tags := by
  induction names generalizing db with
  | nil => rfl
  | cons n ns ih =>
    have h1 : (get_or_create_tag_step u rid db n).tags = db.tags :=
      step_tag_noop db u rid n (h n (List.mem_cons_self n ns))
    have h2 : ∀ m ∈ ns, (findTagRow (get_or_create_tag_step u rid db n) u m).isSome = true := by
      intro m hm
      rw [findTagRow_congr _ db u m h1]
      exact h m (List.mem_cons_of_mem n hm)
    show (get_or_create_tags (get_or_create_tag_step u rid db n) u ns rid).tags = db.tags
    rw [ih _ h2, h1]

/-- A lookup that succeeds keeps succeeding after the table is
extended. -/
theorem findTagRow_isSome_append (db db2 : DB) (u : Nat) (name : String)
    (ext : List Tag) (h2 : db2.tags = db.tags ++ ext)
    (h : (findTagRow db u name).isSome = true) :
    (findTagRow db2 u name).isSome = true := by
  unfold findTagRow at h ⊢
  rw [h2, List.find?_append]
  rcases Option.isSome_iff_exists.mp h with ⟨t, ht⟩
  rw [ht]
  rfl

/-- After get-or-create the looked-up row exists. -/
theorem tag_get_or_create_finds (db : DB) (u : Nat) (name : String) :
    (findTagRow (tag_get_or_create db u name).2 u name).isSome = true := by
  cases hf : findTagRow db u name with
  | some t =>
    rw [tag_get_or_create_found db u name t hf]
    rw [hf]
    rfl
  | none =>
    rw [tag_get_or_create_not_found db u name hf]
    unfold findTagRow at hf ⊢
    simp only
    rw [List.find?_append, hf]
    simp [List.find?_cons]

/-- After the loop every payload name has a matching row. -/
theorem fold_tag_creates (u rid : Nat) (names : List String) (db : DB) :
    ∀ n ∈ names, (findTagRow (get_or_create_tags db u names rid) u n).isSome = true := by
  induction names generalizing db with
  | nil => simp
  | cons n' ns ih =>
    intro n hn
    rcases List.mem_cons.mp hn with rfl | hmem
    · have hstep : (findTagRow (get_or_create_tag_step u rid db n) u n).isSome = true := by
        rw [findTagRow_congr _ (tag_get_or_create db u n).2 u n (step_tag_table db u rid n)]
        exact tag_get_or_create_finds db u n
      rcases fold_tag_table u rid ns (get_or_create_tag_step u rid db n) with ⟨ext, he, _⟩
      show (findTagRow (get_or_create_tags (get_or_create_tag_step u rid db n) u ns rid) u n).isSome = true
      exact findTagRow_isSome_append _ _ u n ext he hstep
    · exact ih (get_or_create_tag_step u rid db n') n hmem

/-- Running the loop a second time with the same names changes no tag
row: get-or-create is idempotent on the tag table. -/
theorem fold_tag_idem (u rid rid2 : Nat) (names : List String) (db : DB) :
    (get_or_create_tags (get_or_create_tags db u names rid) u names rid2).tags =
      (get_or_create_tags db u names rid).tags :=
  fold_tag_noop u rid2 names _ (fold_tag_creates u rid names db)

/-- `tagsOf` only reads the recipe table. -/
theorem tagsOf_congr_recipes (db db2 : DB) (h : db.recipes = db2.recipes) (rid : Nat) :
    tagsOf db rid = tagsOf db2 rid := by
  unfold tagsOf
  rw [h]

/-- Each id the loop iteration links is an old link or the id of a row
owned by the requesting user carrying the iteration's name. -/
theorem step_link_sound (db : DB) (u rid : Nat) (name : String) :
    ∀ x ∈ tagsOf (get_or_create_tag_step u rid db name) rid,
      x ∈ tagsOf db rid ∨
      ∃ t ∈ (get_or_create_tag_step u rid db name).tags,
        t.id = x ∧ t.user = u ∧ t.name = name := by
  intro x hx
  have h1 := (tagsOf_addTag (tag_get_or_create db u name).2 rid
    (tag_get_or_create db u name).1.id).1 x hx
  rw [tagsOf_congr_recipes (tag_get_or_create db u name).2 db
    (tag_get_or_create_recipes db u name) rid] at h1
  rcases h1 with h | h
  · exact Or.inl h
  · refine Or.inr ⟨(tag_get_or_create db u name).1, tag_get_or_create_mem db u name,
      ?_, tag_get_or_create_user db u name, tag_get_or_create_name db u name⟩
    rw [h]

/-- Each id the loop links is an old link or the id of a row owned by
the requesting user carrying one of the payload names. -/
theorem fold_link_sound (u rid : Nat) (names : List String) (db : DB) :
    ∀ x ∈ tagsOf (get_or_create_tags db u names rid) rid,
      x ∈ tagsOf db rid ∨
      ∃ t ∈ (get_or_create_tags db u names rid).tags,
        t.id = x ∧ t.user = u ∧ t.name ∈ names := by
  induction names generalizing db with
  | nil =>
    intro x hx
    exact Or.inl hx
  | cons n ns ih =>
    intro x hx
    have hx' := ih (get_or_create_tag_step u rid db n) x hx
    rcases hx' with h | ⟨t, ht, hid, hu, hn⟩
    · rcases step_link_sound db u rid n x h with h2 | ⟨t, ht, hid, hu, hn⟩
      · exact Or.inl h2
      · rcases fold_tag_table u rid ns (get_or_create_tag_step u rid db n) with ⟨ext, he, _⟩
        refine Or.inr ⟨t, ?_, hid, hu, ?_⟩
        · show t ∈ (get_or_create_tags (get_or_create_tag_step u rid db n) u ns rid).tags
          rw [he]
          exact List.mem_append.mpr (Or.inl ht)
        · rw [hn]
          exact List.mem_cons_self n ns
    · exact Or.inr ⟨t, ht, hid, hu, List.mem_cons_of_mem n hn⟩

/-- The loop iteration never unlinks a tag. -/
theorem step_link_preserve (db : DB) (u rid : Nat) (name : String) :
    ∀ x ∈ tagsOf db rid, x ∈ tagsOf (get_or_create_tag_step u rid db name) rid := by
  intro x hx
  apply (tagsOf_addTag (tag_get_or_create db u name).2 rid
    (tag_get_or_create db u name).1.id).2.1
  rw [tagsOf_congr_recipes (tag_get_or_create db u name).2 db
    (tag_get_or_create_recipes db u name) rid]
  exact hx

/-- The loop never unlinks a tag. -/
theorem fold_link_preserve (u rid : Nat) (names : List String) (db : DB) :
    ∀ x ∈ tagsOf db rid, x ∈ tagsOf (get_or_create_tags db u names rid) rid := by
  induction names generalizing db with
  | nil =>
    intro x hx
    exact hx
  | cons n ns ih =>
    intro x hx
    exact ih _ x (step_link_preserve db u rid n x hx)

/-- The loop iteration keeps the targeted recipe in the table. -/
theorem step_recipe_exists (db : DB) (u rid : Nat) (name : String)
    (h : (db.recipes.find? (fun r => r.id == rid)).isSome = true) :
    ((get_or_create_tag_step u rid db name).recipes.find?
      (fun r => r.id == rid)).isSome = true := by
  show ((recipeAddTag (tag_get_or_create db u name).2 rid
    (tag_get_or_create db u name).1.id).recipes.find? (fun r => r.id == rid)).isSome = true
  unfold recipeAddTag
  simp only
  rw [find?_map_id _ _ (recipeAddTag_id rid _) rid, tag_get_or_create_recipes db u name]
  cases hf : db.recipes.find? (fun r => r.id == rid) with
  | none =>
    rw [hf] at h
    cases h
  | some r => rfl

/-- When the targeted recipe exists, the loop iteration links its row's
id to it. -/
theorem step_link_done (db : DB) (u rid : Nat) (name : String)
    (h : (db.recipes.find? (fun r => r.id == rid)).isSome = true) :
    (tag_get_or_create db u name).1.id ∈
      tagsOf (get_or_create_tag_step u rid db name) rid := by
  apply (tagsOf_addTag (tag_get_or_create db u name).2 rid
    (tag_get_or_create db u name).1.id).2.2
  rw [tag_get_or_create_recipes db u name]
  exact h

/-- When the targeted recipe exists, after the loop every payload name
has a row owned by the requesting user that is linked to the recipe. -/
theorem fold_link_complete (u rid : Nat) (names : List String) (db : DB)
    (h : (db.recipes.find? (fun r => r.id == rid)).isSome = true) :
    ∀ n ∈ names, ∃ t ∈ (get_or_create_tags db u names rid).tags,
      t.user = u ∧ t.name = n ∧
      t.id ∈ tagsOf (get_or_create_tags db u names rid) rid := by
  induction names generalizing db with
  | nil => simp
  | cons n' ns ih =>
    intro n hn
    rcases List.mem_cons.mp hn with rfl | hmem
    · refine ⟨(tag_get_or_create db u n).1, ?_, tag_get_or_create_user db u n,
        tag_get_or_create_name db u n, ?_⟩
      · rcases fold_tag_table u rid ns (get_or_create_tag_step u rid db n) with ⟨ext, he, _⟩
        show (tag_get_or_create db u n).1 ∈
          (get_or_create_tags (get_or_create_tag_step u rid db n) u ns rid).tags
        rw [he]
        exact List.mem_append.mpr (Or.inl (tag_get_or_create_mem db u n))
      · show (tag_get_or_create db u n).1.id ∈
          tagsOf (get_or_create_tags (get_or_create_tag_step u rid db n) u ns rid) rid
        exact fold_link_preserve u rid ns _ _ (step_link_done db u rid n h)
    · exact ih (get_or_create_tag_step u rid db n') (step_recipe_exists db u rid n' h) n hmem

/-! ## Lemmas on get-or-create (ingredients side) -/

/-- A found ingredient row is returned as is, with the database unchanged. -/
theorem ingredient_get_or_create_found (db : DB) (u : Nat) (name : String) (t : Ingredient)
    (h : findIngredientRow db u name = some t) : ingredient_get_or_create db u name = (t, db) := by
  unfold ingredient_get_or_create
  rw [h]

/-- A found ingredient row matches the lookup's user and name. -/
theorem findIngredientRow_props (db : DB) (u : Nat) (name : String) (t : Ingredient)
    (h : findIngredientRow db u name = some t) :
    t.user = u ∧ t.name = name ∧ t ∈ db.ingredients := by
  have hp := List.find?_some h
  have hm := List.mem_of_find?_eq_some h
  simp only [Bool.and_eq_true, beq_iff_eq] at hp
  exact ⟨hp.1, hp.2, hm⟩

/-- When no row matches, a fresh row owned by the requesting user is
inserted. -/
theorem ingredient_get_or_create_not_found (db : DB) (u : Nat) (name : String)
    (h : findIngredientRow db u name = none) :
    ingredient_get_or_create db u name =
      (⟨db.nextIngredientId, u, name⟩,
       { db with ingredients := db.ingredients ++ [⟨db.nextIngredientId, u, name⟩],
                 nextIngredientId := db.nextIngredientId + 1 }) := by
  unfold ingredient_get_or_create
  rw [h]

/-- The returned ingredient row is always owned by the requesting user. -/
theorem ingredient_get_or_create_user (db : DB) (u : Nat) (name : String) :
    (ingredient_get_or_create db u name).1.user = u := by
  cases h : findIngredientRow db u name with
  | none => rw [ingredient_get_or_create_not_found db u name h]
  | some t =>
    rw [ingredient_get_or_create_found db u name t h]
    exact (findIngredientRow_props db u name t h).1

/-- The returned ingredient row carries the requested name. -/
theorem ingredient_get_or_create_name (db : DB) (u : Nat) (name : String) :
    (ingredient_get_or_create db u name).1.name = name := by
  cases h : findIngredientRow db u name with
  | none => rw [ingredient_get_or_create_not_found db u name h]
  | some t =>
    rw [ingredient_get_or_create_found db u name t h]
    exact (findIngredientRow_props db u name t h).2.1

/-- The returned ingredient row is in the resulting ingredient table. -/
theorem ingredient_get_or_create_mem (db : DB) (u : Nat) (name : String) :
    (ingredient_get_or_create db u name).1 ∈ (ingredient_get_or_create db u name).2.ingredients := by
  cases h : findIngredientRow db u name with
  | none =>
    rw [ingredient_get_or_create_not_found db u name h]
    simp
  | some t =>
    rw [ingredient_get_or_create_found db u name t h]
    exact (findIngredientRow_props db u name t h).2.2

/-- The resulting ingredient table extends the old one, any new row being owned
by the requesting user with the requested name. -/
theorem ingredient_get_or_create_table (db : DB) (u : Nat) (name : String) :
    ∃ ext, (ingredient_get_or_create db u name).2.ingredients = db.ingredients ++ ext ∧
      ∀ t ∈ ext, t.user = u ∧ t.name = name := by
  cases h : findIngredientRow db u name with
  | none =>
    rw [ingredient_get_or_create_not_found db u name h]
    exact ⟨[⟨db.nextIngredientId, u, name⟩], rfl, by simp⟩
  | some t =>
    rw [ingredient_get_or_create_found db u name t h]
    exact ⟨[], by simp, by simp⟩

/-- Get-or-create leaves the recipe table untouched. -/
theorem ingredient_get_or_create_recipes (db : DB) (u : Nat) (name : String) :
    (ingredient_get_or_create db u name).2.recipes = db.recipes := by
  cases h : findIngredientRow db u name with
  | none => rw [ingredient_get_or_create_not_found db u name h]
  | some t => rw [ingredient_get_or_create_found db u name t h]

/-- Get-or-create of an ingredient leaves the ingredient table untouched. -/
theorem ingredient_get_or_create_tag_table (db : DB) (u : Nat) (name : String) :
    (ingredient_get_or_create db u name).2.tags = db.tags := by
  cases h : findIngredientRow db u name with
  | none => rw [ingredient_get_or_create_not_found db u name h]
  | some t => rw [ingredient_get_or_create_found db u name t h]

/-- The lookup only reads the ingredient table. -/
theorem findIngredientRow_congr (db db2 : DB) (u : Nat) (name : String)
    (h : db.ingredients = db2.ingredients) : findIngredientRow db u name = findIngredientRow db2 u name := by
  unfold findIngredientRow
  rw [h]

/-- The id-preserving update `recipeAddIngredient` keeps every recipe's id. -/
theorem recipeAddIngredient_id (rid tid : Nat) (r : Recipe) :
    (if r.id == rid then
       (if r.ingredients.contains tid then r else { r with ingredients := r.ingredients ++ [tid] })
     else r).id = r.id := by
  by_cases h : (r.id == rid) = true
  · rw [if_pos h]
    by_cases hc : r.ingredients.contains tid = true
    · rw [if_pos hc]
    · rw [if_neg hc]
  · rw [if_neg h]

/-- Linked tag ids after `recipe.ingredients.add`: each is an old link or the
added id; old links persist; and when the recipe exists the added id is
linked. -/
theorem ingredientsOf_addIngredient (db : DB) (rid tid : Nat) :
    (∀ x ∈ ingredientsOf (recipeAddIngredient db rid tid) rid, x ∈ ingredientsOf db rid ∨ x = tid) ∧
    (∀ x ∈ ingredientsOf db rid, x ∈ ingredientsOf (recipeAddIngredient db rid tid) rid) ∧
    ((db.recipes.find? (fun r => r.id == rid)).isSome →
       tid ∈ ingredientsOf (recipeAddIngredient db rid tid) rid) := by
  unfold recipeAddIngredient ingredientsOf
  simp only
  rw [find?_map_id _ _ (recipeAddIngredient_id rid tid) rid]
  cases hf : db.recipes.find? (fun r => r.id == rid) with
  | none => simp
  | some r =>
    have hr : (r.id == rid) = true := by simpa using List.find?_some hf
    simp only [Option.map_some', Option.getD_some, if_pos hr]
    by_cases hc : r.ingredients.contains tid = true
    · rw [if_pos hc]
      refine ⟨fun x hx => Or.inl hx, fun x hx => hx, fun _ => ?_⟩
      exact List.elem_iff.mp hc
    · rw [if_neg hc]
      refine ⟨?_, ?_, ?_⟩
      · intro x hx
        rcases List.mem_append.mp hx with h | h
        · exact Or.inl h
        · exact Or.inr (by simpa using h)
      · intro x hx
        exact List.mem_append.mpr (Or.inl hx)
      · intro _
        exact List.mem_append.mpr (Or.inr (by simp))

/-- `recipe.ingredients.add` leaves the tag, ingredient and user tables
unchanged. -/
theorem recipeAddIngredient_tables (db : DB) (rid tid : Nat) :
    (recipeAddIngredient db rid tid).ingredients = db.ingredients ∧
    (recipeAddIngredient db rid tid).tags = db.tags := ⟨rfl, rfl⟩

/-- One loop iteration leaves the ingredient table exactly as get-or-create
left it (`recipe.ingredients.add` does not touch it). -/
theorem step_ingredient_table (db : DB) (u rid : Nat) (name : String) :
    (get_or_create_ingredient_step u rid db name).ingredients =
      (ingredient_get_or_create db u name).2.ingredients := rfl

/-- The loop only appends to the ingredient table, every appended row being the
requesting user's and named by the payload. -/
theorem fold_ingredient_table (u rid : Nat) (names : List String) (db : DB) :
    ∃ ext, (get_or_create_ingredients db u names rid).ingredients = db.ingredients ++ ext ∧
      ∀ t ∈ ext, t.user = u ∧ t.name ∈ names := by
  induction names generalizing db with
  | nil => exact ⟨[], by simp [get_or_create_ingredients], by simp⟩
  | cons n ns ih =>
    rcases ih (get_or_create_ingredient_step u rid db n) with ⟨ext2, h2, hp2⟩
    rcases ingredient_get_or_create_table db u n with ⟨ext1, h1, hp1⟩
    refine ⟨ext1 ++ ext2, ?_, ?_⟩
    · show (get_or_create_ingredients (get_or_create_ingredient_step u rid db n) u ns rid).ingredients = _
      rw [h2, step_ingredient_table, h1, List.append_assoc]
    · intro t ht
      rcases List.mem_append.mp ht with h | h
      · refine ⟨(hp1 t h).1, ?_⟩
        rw [(hp1 t h).2]
        exact List.mem_cons_self n ns
      · exact ⟨(hp2 t h).1, List.mem_cons_of_mem n (hp2 t h).2⟩

/-- Get-or-create preserves the at-most-one-row-per-(user, name)
invariant of the ingredient table. -/
theorem ingredient_get_or_create_inv (db : DB) (u : Nat) (name : String)
    (h : atMostOneIngredientPerUserName db) :
    atMostOneIngredientPerUserName (ingredient_get_or_create db u name).2 := by
  cases hf : findIngredientRow db u name with
  | some t =>
    rw [ingredient_get_or_create_found db u name t hf]
    exact h
  | none =>
    rw [ingredient_get_or_create_not_found db u name hf]
    unfold atMostOneIngredientPerUserName at h ⊢
    simp only
    rw [List.pairwise_append]
    refine ⟨h, by simp, ?_⟩
    intro a ha b hb
    simp only [List.mem_singleton] at hb
    subst hb
    unfold findIngredientRow at hf
    have hnone := List.find?_eq_none.mp hf a ha
    simp only [Bool.and_eq_true, beq_iff_eq] at hnone
    intro hcon
    exact hnone ⟨hcon.1, hcon.2⟩

/-- One loop iteration preserves the ingredient-table invariant. -/
theorem step_ingredient_inv (db : DB) (u rid : Nat) (name : String)
    (h : atMostOneIngredientPerUserName db) :
    atMostOneIngredientPerUserName (get_or_create_ingredient_step u rid db name) :=
  ingredient_get_or_create_inv db u name h

/-- The whole loop preserves the ingredient-table invariant. -/
theorem fold_ingredient_inv (u rid : Nat) (names : List String) (db : DB)
    (h : atMostOneIngredientPerUserName db) :
    atMostOneIngredientPerUserName (get_or_create_ingredients db u names rid) := by
  induction names generalizing db with
  | nil => exact h
  | cons n ns ih => exact ih _ (step_ingredient_inv db u rid n h)

/-- A found name makes the loop iteration a no-op on the ingredient table. -/
theorem step_ingredient_noop (db : DB) (u rid : Nat) (name : String)
    (h : (findIngredientRow db u name).isSome = true) :
    (get_or_create_ingredient_step u rid db name).ingredients = db.ingredients := by
  rcases Option.isSome_iff_exists.mp h with ⟨t, ht⟩
  rw [step_ingredient_table, ingredient_get_or_create_found db u name t ht]

/-- When every payload name already has a row, the loop leaves the tag
table unchanged. -/
theorem fold_ingredient_noop (u rid : Nat) (names : List String) (db : DB)
    (h : ∀ n ∈ names, (findIngredientRow db u n).isSome = true) :
    (get_or_create_ingredients db u names rid).ingredients = db.ingredients := by
  induction names generalizing db with
  | nil => rfl
  | cons n ns ih =>
    have h1 : (get_or_create_ingredient_step u rid db n).ingredients = db.ingredients :=
      step_ingredient_noop db u rid n (h n (List.mem_cons_self n ns))
    have h2 : ∀ m ∈ ns, (findIngredientRow (get_or_create_ingredient_step u rid db n) u m).isSome = true := by
      intro m hm
      rw [findIngredientRow_congr _ db u m h1]
      exact h m (List.mem_cons_of_mem n hm)
    show (get_or_create_ingredients (get_or_create_ingredient_step u rid db n) u ns rid).ingredients = db.ingredients
    rw [ih _ h2, h1]

/-- A lookup that succeeds keeps succeeding after the table is
extended. -/
theorem findIngredientRow_isSome_append (db db2 : DB) (u : Nat) (name : String)
    (ext : List Ingredient) (h2 : db2.ingredients = db.ingredients ++ ext)
    (h : (findIngredientRow db u name).isSome = true) :
    (findIngredientRow db2 u name).isSome = true := by
  unfold findIngredientRow at h ⊢
  rw [h2, List.find?_append]
  rcases Option.isSome_iff_exists.mp h with ⟨t, ht⟩
  rw [ht]
  rfl

/-- After get-or-create the looked-up row exists. -/
theorem ingredient_get_or_create_finds (db : DB) (u : Nat) (name : String) :
    (findIngredientRow (ingredient_get_or_create db u name).2 u name).isSome = true := by
  cases hf : findIngredientRow db u name with
  | some t =>
    rw [ingredient_get_or_create_found db u name t hf]
    rw [hf]
    rfl
  | none =>
    rw [ingredient_get_or_create_not_found db u name hf]
    unfold findIngredientRow at hf ⊢
    simp only
    rw [List.find?_append, hf]
    simp [List.find?_cons]

/-- After the loop every payload name has a matching row. -/
theorem fold_ingredient_creates (u rid : Nat) (names : List String) (db : DB) :
    ∀ n ∈ names, (findIngredientRow (get_or_create_ingredients db u names rid) u n).isSome = true := by
  induction names generalizing db with
  | nil => simp
  | cons n' ns ih =>
    intro n hn
    rcases List.mem_cons.mp hn with rfl | hmem
    · have hstep : (findIngredientRow (get_or_create_ingredient_step u rid db n) u n).isSome = true := by
        rw [findIngredientRow_congr _ (ingredient_get_or_create db u n).2 u n (step_ingredient_table db u rid n)]
        exact ingredient_get_or_create_finds db u n
      rcases fold_ingredient_table u rid ns (get_or_create_ingredient_step u rid db n) with ⟨ext, he, _⟩
      show (findIngredientRow (get_or_create_ingredients (get_or_create_ingredient_step u rid db n) u ns rid) u n).isSome = true
      exact findIngredientRow_isSome_append _ _ u n ext he hstep
    · exact ih (get_or_create_ingredient_step u rid db n') n hmem

/-- Running the loop a second time with the same names changes no tag
row: get-or-create is idempotent on the ingredient table. -/
theorem fold_ingredient_idem (u rid rid2 : Nat) (names : List String) (db : DB) :
    (get_or_create_ingredients (get_or_create_ingredients db u names rid) u names rid2).ingredients =
      (get_or_create_ingredients db u names rid).ingredients :=
  fold_ingredient_noop u rid2 names _ (fold_ingredient_creates u rid names db)

/-- `ingredientsOf` only reads the recipe table. -/
theorem ingredientsOf_congr_recipes (db db2 : DB) (h : db.recipes = db2.recipes) (rid : Nat) :
    ingredientsOf db rid = ingredientsOf db2 rid := by
  unfold ingredientsOf
  rw [h]

/-- Each id the loop iteration links is an old link or the id of a row
owned by the requesting user carrying the iteration's name. -/
theorem step_ing_link_sound (db : DB) (u rid : Nat) (name : String) :
    ∀ x ∈ ingredientsOf (get_or_create_ingredient_step u rid db name) rid,
      x ∈ ingredientsOf db rid ∨
      ∃ t ∈ (get_or_create_ingredient_step u rid db name).ingredients,
        t.id = x ∧ t.user = u ∧ t.name = name := by
  intro x hx
  have h1 := (ingredientsOf_addIngredient (ingredient_get_or_create db u name).2 rid
    (ingredient_get_or_create db u name).1.id).1 x hx
  rw [ingredientsOf_congr_recipes (ingredient_get_or_create db u name).2 db
    (ingredient_get_or_create_recipes db u name) rid] at h1
  rcases h1 with h | h
  · exact Or.inl h
  · refine Or.inr ⟨(ingredient_get_or_create db u name).1, ingredient_get_or_create_mem db u name,
      ?_, ingredient_get_or_create_user db u name, ingredient_get_or_create_name db u name⟩
    rw [h]

/-- Each id the loop links is an old link or the id of a row owned by
the requesting user carrying one of the payload names. -/
theorem fold_ing_link_sound (u rid : Nat) (names : List String) (db : DB) :
    ∀ x ∈ ingredientsOf (get_or_create_ingredients db u names rid) rid,
      x ∈ ingredientsOf db rid ∨
      ∃ t ∈ (get_or_create_ingredients db u names rid).ingredients,
        t.id = x ∧ t.user = u ∧ t.name ∈ names := by
  induction names generalizing db with
  | nil =>
    intro x hx
    exact Or.inl hx
  | cons n ns ih =>
    intro x hx
    have hx' := ih (get_or_create_ingredient_step u rid db n) x hx
    rcases hx' with h | ⟨t, ht, hid, hu, hn⟩
    · rcases step_ing_link_sound db u rid n x h with h2 | ⟨t, ht, hid, hu, hn⟩
      · exact Or.inl h2
      · rcases fold_ingredient_table u rid ns (get_or_create_ingredient_step u rid db n) with ⟨ext, he, _⟩
        refine Or.inr ⟨t, ?_, hid, hu, ?_⟩
        · show t ∈ (get_or_create_ingredients (get_or_create_ingredient_step u rid db n) u ns rid).ingredients
          rw [he]
          exact List.mem_append.mpr (Or.inl ht)
        · rw [hn]
          exact List.mem_cons_self n ns
    · exact Or.inr ⟨t, ht, hid, hu, List.mem_cons_of_mem n hn⟩

/-- The loop iteration never unlinks an ingredient. -/
theorem step_ing_link_preserve (db : DB) (u rid : Nat) (name : String) :
    ∀ x ∈ ingredientsOf db rid, x ∈ ingredientsOf (get_or_create_ingredient_step u rid db name) rid := by
  intro x hx
  apply (ingredientsOf_addIngredient (ingredient_get_or_create db u name).2 rid
    (ingredient_get_or_create db u name).1.id).2.1
  rw [ingredientsOf_congr_recipes (ingredient_get_or_create db u name).2 db
    (ingredient_get_or_create_recipes db u name) rid]
  exact hx

/-- The loop never unlinks an ingredient. -/
theorem fold_ing_link_preserve (u rid : Nat) (names : List String) (db : DB) :
    ∀ x ∈ ingredientsOf db rid, x ∈ ingredientsOf (get_or_create_ingredients db u names rid) rid := by
  induction names generalizing db with
  | nil =>
    intro x hx
    exact hx
  | cons n ns ih =>
    intro x hx
    exact ih _ x (step_ing_link_preserve db u rid n x hx)

/-- The loop iteration keeps the targeted recipe in the table. -/
theorem step_ing_recipe_exists (db : DB) (u rid : Nat) (name : String)
    (h : (db.recipes.find? (fun r => r.id == rid)).isSome = true) :
    ((get_or_create_ingredient_step u rid db name).recipes.find?
      (fun r => r.id == rid)).isSome = true := by
  show ((recipeAddIngredient (ingredient_get_or_create db u name).2 rid
    (ingredient_get_or_create db u name).1.id).recipes.find? (fun r => r.id == rid)).isSome = true
  unfold recipeAddIngredient
  simp only
  rw [find?_map_id _ _ (recipeAddIngredient_id rid _) rid, ingredient_get_or_create_recipes db u name]
  cases hf : db.recipes.find? (fun r => r.id == rid) with
  | none =>
    rw [hf] at h
    cases h
  | some r => rfl

/-- When the targeted recipe exists, the loop iteration links its row's
id to it. -/
theorem step_ing_link_done (db : DB) (u rid : Nat) (name : String)
    (h : (db.recipes.find? (fun r => r.id == rid)).isSome = true) :
    (ingredient_get_or_create db u name).1.id ∈
      ingredientsOf (get_or_create_ingredient_step u rid db name) rid := by
  apply (ingredientsOf_addIngredient (ingredient_get_or_create db u name).2 rid
    (ingredient_get_or_create db u name).1.id).2.2
  rw [ingredient_get_or_create_recipes db u name]
  exact h

/-- When the targeted recipe exists, after the loop every payload name
has a row owned by the requesting user that is linked to the recipe. -/
theorem fold_ing_link_complete (u rid : Nat) (names : List String) (db : DB)
    (h : (db.recipes.find? (fun r => r.id == rid)).isSome = true) :
    ∀ n ∈ names, ∃ t ∈ (get_or_create_ingredients db u names rid).ingredients,
      t.user = u ∧ t.name = n ∧
      t.id ∈ ingredientsOf (get_or_create_ingredients db u names rid) rid := by
  induction names generalizing db with
  | nil => simp
  | cons n' ns ih =>
    intro n hn
    rcases List.mem_cons.mp hn with rfl | hmem
    · refine ⟨(ingredient_get_or_create db u n).1, ?_, ingredient_get_or_create_user db u n,
        ingredient_get_or_create_name db u n, ?_⟩
      · rcases fold_ingredient_table u rid ns (get_or_create_ingredient_step u rid db n) with ⟨ext, he, _⟩
        show (ingredient_get_or_create db u n).1 ∈
          (get_or_create_ingredients (get_or_create_ingredient_step u rid db n) u ns rid).ingredients
        rw [he]
        exact List.mem_append.mpr (Or.inl (ingredient_get_or_create_mem db u n))
      · show (ingredient_get_or_create db u n).1.id ∈
          ingredientsOf (get_or_create_ingredients (get_or_create_ingredient_step u rid db n) u ns rid) rid
        exact fold_ing_link_preserve u rid ns _ _ (step_ing_link_done db u rid n h)
    · exact ih (get_or_create_ingredient_step u rid db n') (step_ing_recipe_exists db u rid n' h) n hmem


/-! ## Cross-table preservation and serializer-level invariants -/

/-- The ingredient loop leaves the tag table untouched. -/
theorem fold_ingredient_keeps_tag_table (u rid : Nat) (names : List String) (db : DB) :
    (get_or_create_ingredients db u names rid).tags = db.tags := by
  induction names generalizing db with
  | nil => rfl
  | cons n ns ih =>
    show (get_or_create_ingredients
      (get_or_create_ingredient_step u rid db n) u ns rid).tags = db.tags
    rw [ih]
    exact ingredient_get_or_create_tag_table db u n

/-- The tag loop leaves the ingredient table untouched. -/
theorem fold_tag_keeps_ingredient_table (u rid : Nat) (names : List String) (db : DB) :
    (get_or_create_tags db u names rid).ingredients = db.ingredients := by
  induction names generalizing db with
  | nil => rfl
  | cons n ns ih =>
    show (get_or_create_tags
      (get_or_create_tag_step u rid db n) u ns rid).ingredients = db.ingredients
    rw [ih]
    exact tag_get_or_create_ingredient_table db u n

/-- The tag-table invariant only reads the tag table. -/
theorem atMostOneTag_congr (db db2 : DB) (h : db.tags = db2.tags) :
    atMostOneTagPerUserName db ↔ atMostOneTagPerUserName db2 := by
  unfold atMostOneTagPerUserName
  rw [h]

/-- The ingredient-table invariant only reads the ingredient table. -/
theorem atMostOneIngredient_congr (db db2 : DB) (h : db.ingredients = db2.ingredients) :
    atMostOneIngredientPerUserName db ↔ atMostOneIngredientPerUserName db2 := by
  unfold atMostOneIngredientPerUserName
  rw [h]

/-- `RecipeSerializer.create` preserves the tag-table invariant. -/
theorem serializer_create_tags_inv (db : DB) (u : Nat) (v : ValidatedRecipeData)
    (h : atMostOneTagPerUserName db) :
    atMostOneTagPerUserName (serializer_create db u v).2 :=
  (atMostOneTag_congr _ _ (fold_ingredient_keeps_tag_table u _ (v.ingredients.getD []) _)).mpr
    (fold_tag_inv u _ (v.tags.getD []) _ h)

/-- `RecipeSerializer.create` preserves the ingredient-table invariant. -/
theorem serializer_create_ingredients_inv (db : DB) (u : Nat) (v : ValidatedRecipeData)
    (h : atMostOneIngredientPerUserName db) :
    atMostOneIngredientPerUserName (serializer_create db u v).2 :=
  fold_ingredient_inv u _ (v.ingredients.getD []) _
    ((atMostOneIngredient_congr _ _
      (fold_tag_keeps_ingredient_table u _ (v.tags.getD []) _)).mpr h)

/-- `RecipeSerializer.update` preserves the tag-table invariant. -/
theorem serializer_update_tags_inv (db : DB) (u rid : Nat) (v : ValidatedRecipeData)
    (h : atMostOneTagPerUserName db) :
    atMostOneTagPerUserName (serializer_update db u rid v) := by
  unfold serializer_update
  cases htags : v.tags with
  | none =>
    cases hing : v.ingredients with
    | none => exact h
    | some ni =>
      exact (atMostOneTag_congr _ _ (fold_ingredient_keeps_tag_table u rid ni _)).mpr h
  | some nt =>
    cases hing : v.ingredients with
    | none => exact fold_tag_inv u rid nt _ h
    | some ni =>
      exact (atMostOneTag_congr _ _ (fold_ingredient_keeps_tag_table u rid ni _)).mpr
        (fold_tag_inv u rid nt _ h)

/-- `RecipeSerializer.update` preserves the ingredient-table invariant. -/
theorem serializer_update_ingredients_inv (db : DB) (u rid : Nat)
    (v : ValidatedRecipeData) (h : atMostOneIngredientPerUserName db) :
    atMostOneIngredientPerUserName (serializer_update db u rid v) := by
  unfold serializer_update
  cases htags : v.tags with
  | none =>
    cases hing : v.ingredients with
    | none => exact h
    | some ni => exact fold_ingredient_inv u rid ni _ h
  | some nt =>
    cases hing : v.ingredients with
    | none =>
      exact (atMostOneIngredient_congr _ _
        (fold_tag_keeps_ingredient_table u rid nt _)).mpr h
    | some ni =>
      exact fold_ingredient_inv u rid ni _
        ((atMostOneIngredient_congr _ _
          (fold_tag_keeps_ingredient_table u rid nt _)).mpr h)

/-! ## C3: get-or-create of tags and ingredients on recipe writes -/

/-- C3: on a recipe write naming a tag (resp. ingredient): an existing
row of the authenticated user with that name is reused, unchanged, and
linked; otherwise exactly one fresh row owned by the authenticated user
is inserted; a same-named row of another user is never the one linked;
the loop keeps at most one row per (user, name) pair, repeating the same
write changes no row, and both serializer entry points (create and
update) preserve the at-most-one invariant. -/
theorem get_or_create_scoped_idempotent (db : DB) (u rid rid2 : Nat)
    (name : String) (names : List String) (v : ValidatedRecipeData) :
    (∀ t, findTagRow db u name = some t →
       tag_get_or_create db u name = (t, db) ∧ t.user = u ∧ t.name = name) ∧
    (findTagRow db u name = none →
       tag_get_or_create db u name =
         (⟨db.nextTagId, u, name⟩,
          { db with tags := db.tags ++ [⟨db.nextTagId, u, name⟩],
                    nextTagId := db.nextTagId + 1 })) ∧
    ((tag_get_or_create db u name).1.user = u) ∧
    ((db.recipes.find? (fun r => r.id == rid)).isSome = true →
       (tag_get_or_create db u name).1.id ∈
         tagsOf (get_or_create_tag_step u rid db name) rid) ∧
    (atMostOneTagPerUserName db →
       atMostOneTagPerUserName (get_or_create_tags db u names rid)) ∧
    ((get_or_create_tags (get_or_create_tags db u names rid) u names rid2).tags =
       (get_or_create_tags db u names rid).tags) ∧
    (∀ i, findIngredientRow db u name = some i →
       ingredient_get_or_create db u name = (i, db) ∧ i.user = u ∧ i.name = name) ∧
    (findIngredientRow db u name = none →
       ingredient_get_or_create db u name =
         (⟨db.nextIngredientId, u, name⟩,
          { db with ingredients := db.ingredients ++ [⟨db.nextIngredientId, u, name⟩],
                    nextIngredientId := db.nextIngredientId + 1 })) ∧
    ((ingredient_get_or_create db u name).1.user = u) ∧
    ((db.recipes.find? (fun r => r.id == rid)).isSome = true →
       (ingredient_get_or_create db u name).1.id ∈
         ingredientsOf (get_or_create_ingredient_step u rid db name) rid) ∧
    (atMostOneIngredientPerUserName db →
       atMostOneIngredientPerUserName (get_or_create_ingredients db u names rid)) ∧
    ((get_or_create_ingredients (get_or_create_ingredients db u names rid) u names
        rid2).ingredients =
       (get_or_create_ingredients db u names rid).ingredients) ∧
    (atMostOneTagPerUserName db →
       atMostOneTagPerUserName (serializer_create db u v).2) ∧
    (atMostOneIngredientPerUserName db →
       atMostOneIngredientPerUserName (serializer_create db u v).2) ∧
    (atMostOneTagPerUserName db →
       atMostOneTagPerUserName (serializer_update db u rid v)) ∧
    (atMostOneIngredientPerUserName db →
       atMostOneIngredientPerUserName (serializer_update db u rid v)) := by
  refine ⟨?_, tag_get_or_create_not_found db u name, tag_get_or_create_user db u name,
    step_link_done db u rid name, fold_tag_inv u rid names db,
    fold_tag_idem u rid rid2 names db, ?_,
    ingredient_get_or_create_not_found db u name, ingredient_get_or_create_user db u name,
    step_ing_link_done db u rid name, fold_ingredient_inv u rid names db,
    fold_ingredient_idem u rid rid2 names db,
    serializer_create_tags_inv db u v, serializer_create_ingredients_inv db u v,
    serializer_update_tags_inv db u rid v, serializer_update_ingredients_inv db u rid v⟩
  · intro t ht
    exact ⟨tag_get_or_create_found db u name t ht, (findTagRow_props db u name t ht).1,
      (findTagRow_props db u name t ht).2.1⟩
  · intro i hi
    exact ⟨ingredient_get_or_create_found db u name i hi,
      (findIngredientRow_props db u name i hi).1,
      (findIngredientRow_props db u name i hi).2.1⟩

/-- C3 witness: in `dbW` user 1's existing tag `Vegan` is reused with no
insert; a write of the new name `Thai` inserts exactly one row owned by
user 1; the loop over `["Thai", "Vegan"]` is idempotent on the tag table
and keeps the at-most-one invariant; and another user's row (`Fruity`,
owned by user 2) is not reused: the row for user 1 is a fresh one. -/
theorem get_or_create_scoped_idempotent_witness :
    tag_get_or_create dbW 1 "Vegan" = (⟨1, 1, "Vegan"⟩, dbW) ∧
    tag_get_or_create dbW 1 "Thai" =
      (⟨4, 1, "Thai"⟩,
       { dbW with tags := dbW.tags ++ [⟨4, 1, "Thai"⟩], nextTagId := 5 }) ∧
    (tag_get_or_create dbW 1 "Fruity").1 = ⟨4, 1, "Fruity"⟩ ∧
    (get_or_create_tags (get_or_create_tags dbW 1 ["Thai", "Vegan"] 1) 1
        ["Thai", "Vegan"] 1).tags =
      (get_or_create_tags dbW 1 ["Thai", "Vegan"] 1).tags ∧
    atMostOneTagPerUserName (get_or_create_tags dbW 1 ["Thai", "Vegan"] 1) := by
  have h1 := get_or_create_scoped_idempotent dbW 1 1 1 "Vegan" ["Thai", "Vegan"]
    ⟨none, none, none, none, none, none, none⟩
  have h2 := get_or_create_scoped_idempotent dbW 1 1 1 "Thai" ["Thai", "Vegan"]
    ⟨none, none, none, none, none, none, none⟩
  have h3 := get_or_create_scoped_idempotent dbW 1 1 1 "Fruity" ["Thai", "Vegan"]
    ⟨none, none, none, none, none, none, none⟩
  refine ⟨(h1.1 ⟨1, 1, "Vegan"⟩ (by decide)).1, h2.2.1 (by decide), ?_,
    h1.2.2.2.2.2.1, h1.2.2.2.2.1 (by unfold atMostOneTagPerUserName; decide)⟩
  rw [h3.2.1 (by decide)]
  rfl

/-! ## Shape of the recipe table under the serializer's operations -/

/-- `recipe.tags.add`'s row transformation touches only the tags list. -/
theorem addTag_touches (rid tid : Nat) :
    touchesOnlyTags (fun r => if r.id == rid then
      (if r.tags.contains tid then r else { r with tags := r.tags ++ [tid] })
      else r) := by
  intro r
  dsimp only
  by_cases h : (r.id == rid) = true
  · rw [if_pos h]
    by_cases hc : r.tags.contains tid = true
    · rw [if_pos hc]
      exact ⟨rfl, rfl, rfl, rfl, rfl, rfl, rfl, rfl, rfl⟩
    · rw [if_neg hc]
      exact ⟨rfl, rfl, rfl, rfl, rfl, rfl, rfl, rfl, rfl⟩
  · rw [if_neg h]
    exact ⟨rfl, rfl, rfl, rfl, rfl, rfl, rfl, rfl, rfl⟩

/-- `instance.tags.clear()`'s row transformation touches only the tags
list. -/
theorem clearTags_touches (rid : Nat) :
    touchesOnlyTags (fun r => if r.id == rid then { r with tags := [] } else r) := by
  intro r
  dsimp only
  by_cases h : (r.id == rid) = true
  · rw [if_pos h]
    exact ⟨rfl, rfl, rfl, rfl, rfl, rfl, rfl, rfl, rfl⟩
  · rw [if_neg h]
    exact ⟨rfl, rfl, rfl, rfl, rfl, rfl, rfl, rfl, rfl⟩

/-- `recipe.ingredients.add`'s row transformation touches only the
ingredients list. -/
theorem addIngredient_touches (rid iid : Nat) :
    touchesOnlyIngredients (fun r => if r.id == rid then
      (if r.ingredients.contains iid then r
       else { r with ingredients := r.ingredients ++ [iid] })
      else r) := by
  intro r
  dsimp only
  by_cases h : (r.id == rid) = true
  · rw [if_pos h]
    by_cases hc : r.ingredients.contains iid = true
    · rw [if_pos hc]
      exact ⟨rfl, rfl, rfl, rfl, rfl, rfl, rfl, rfl, rfl⟩
    · rw [if_neg hc]
      exact ⟨rfl, rfl, rfl, rfl, rfl, rfl, rfl, rfl, rfl⟩
  · rw [if_neg h]
    exact ⟨rfl, rfl, rfl, rfl, rfl, rfl, rfl, rfl, rfl⟩

/-- `instance.ingredients.clear()`'s row transformation touches only the
ingredients list. -/
theorem clearIngredients_touches (rid : Nat) :
    touchesOnlyIngredients (fun r => if r.id == rid then
      { r with ingredients := [] } else r) := by
  intro r
  dsimp only
  by_cases h : (r.id == rid) = true
  · rw [if_pos h]
    exact ⟨rfl, rfl, rfl, rfl, rfl, rfl, rfl, rfl, rfl⟩
  · rw [if_neg h]
    exact ⟨rfl, rfl, rfl, rfl, rfl, rfl, rfl, rfl, rfl⟩

/-- Tags-only transformations compose. -/
theorem touchesOnlyTags_comp {g1 g2 : Recipe → Recipe}
    (h1 : touchesOnlyTags g1) (h2 : touchesOnlyTags g2) :
    touchesOnlyTags (g2 ∘ g1) := by
  intro r
  rcases h1 r with ⟨a1, a2, a3, a4, a5, a6, a7, a8, a9⟩
  rcases h2 (g1 r) with ⟨b1, b2, b3, b4, b5, b6, b7, b8, b9⟩
  exact ⟨b1.trans a1, b2.trans a2, b3.trans a3, b4.trans a4, b5.trans a5,
    b6.trans a6, b7.trans a7, b8.trans a8, b9.trans a9⟩

/-- Ingredients-only transformations compose. -/
theorem touchesOnlyIngredients_comp {g1 g2 : Recipe → Recipe}
    (h1 : touchesOnlyIngredients g1) (h2 : touchesOnlyIngredients g2) :
    touchesOnlyIngredients (g2 ∘ g1) := by
  intro r
  rcases h1 r with ⟨a1, a2, a3, a4, a5, a6, a7, a8, a9⟩
  rcases h2 (g1 r) with ⟨b1, b2, b3, b4, b5, b6, b7, b8, b9⟩
  exact ⟨b1.trans a1, b2.trans a2, b3.trans a3, b4.trans a4, b5.trans a5,
    b6.trans a6, b7.trans a7, b8.trans a8, b9.trans a9⟩

/-- The identity is a tags-only transformation. -/
theorem touchesOnlyTags_id : touchesOnlyTags id :=
  fun _ => ⟨rfl, rfl, rfl, rfl, rfl, rfl, rfl, rfl, rfl⟩

/-- The identity is an ingredients-only transformation. -/
theorem touchesOnlyIngredients_id : touchesOnlyIngredients id :=
  fun _ => ⟨rfl, rfl, rfl, rfl, rfl, rfl, rfl, rfl, rfl⟩

/-- The tag loop transforms the recipe table by a tags-only map. -/
theorem fold_tag_recipes_shape (u rid : Nat) (names : List String) (db : DB) :
    ∃ G, touchesOnlyTags G ∧
      (get_or_create_tags db u names rid).recipes = db.recipes.map G := by
  induction names generalizing db with
  | nil =>
    refine ⟨id, touchesOnlyTags_id, ?_⟩
    rw [List.map_id]
    rfl
  | cons n ns ih =>
    rcases ih (get_or_create_tag_step u rid db n) with ⟨G, hG, hrec⟩
    refine ⟨G ∘ (fun r => if r.id == rid then
      (if r.tags.contains (tag_get_or_create db u n).1.id then r
       else { r with tags := r.tags ++ [(tag_get_or_create db u n).1.id] })
      else r), touchesOnlyTags_comp (addTag_touches rid _) hG, ?_⟩
    show (get_or_create_tags (get_or_create_tag_step u rid db n) u ns rid).recipes = _
    rw [hrec]
    have hstep : (get_or_create_tag_step u rid db n).recipes =
        db.recipes.map (fun r => if r.id == rid then
          (if r.tags.contains (tag_get_or_create db u n).1.id then r
           else { r with tags := r.tags ++ [(tag_get_or_create db u n).1.id] })
          else r) := by
      show (recipeAddTag (tag_get_or_create db u n).2 rid
        (tag_get_or_create db u n).1.id).recipes = _
      unfold recipeAddTag
      rw [tag_get_or_create_recipes db u n]
    rw [hstep, List.map_map]

/-- The ingredient loop transforms the recipe table by an
ingredients-only map. -/
theorem fold_ingredient_recipes_shape (u rid : Nat) (names : List String) (db : DB) :
    ∃ G, touchesOnlyIngredients G ∧
      (get_or_create_ingredients db u names rid).recipes = db.recipes.map G := by
  induction names generalizing db with
  | nil =>
    refine ⟨id, touchesOnlyIngredients_id, ?_⟩
    rw [List.map_id]
    rfl
  | cons n ns ih =>
    rcases ih (get_or_create_ingredient_step u rid db n) with ⟨G, hG, hrec⟩
    refine ⟨G ∘ (fun r => if r.id == rid then
      (if r.ingredients.contains (ingredient_get_or_create db u n).1.id then r
       else { r with ingredients :=
         r.ingredients ++ [(ingredient_get_or_create db u n).1.id] })
      else r), touchesOnlyIngredients_comp (addIngredient_touches rid _) hG, ?_⟩
    show (get_or_create_ingredients
      (get_or_create_ingredient_step u rid db n) u ns rid).recipes = _
    rw [hrec]
    have hstep : (get_or_create_ingredient_step u rid db n).recipes =
        db.recipes.map (fun r => if r.id == rid then
          (if r.ingredients.contains (ingredient_get_or_create db u n).1.id then r
           else { r with ingredients :=
             r.ingredients ++ [(ingredient_get_or_create db u n).1.id] })
          else r) := by
      show (recipeAddIngredient (ingredient_get_or_create db u n).2 rid
        (ingredient_get_or_create db u n).1.id).recipes = _
      unfold recipeAddIngredient
      rw [ingredient_get_or_create_recipes db u n]
    rw [hstep, List.map_map]

/-- `tagsOf` is unchanged by an id-preserving, tags-preserving map of the
recipe table. -/
theorem tagsOf_eq_of_map (db db2 : DB) (g : Recipe → Recipe)
    (h : db2.recipes = db.recipes.map g) (hid : ∀ r, (g r).id = r.id)
    (htags : ∀ r, (g r).tags = r.tags) (rid : Nat) :
    tagsOf db2 rid = tagsOf db rid := by
  unfold tagsOf
  rw [h, find?_map_id _ g hid rid]
  cases db.recipes.find? (fun r => r.id == rid) with
  | none => rfl
  | some r => simp [htags r]

/-- `ingredientsOf` is unchanged by an id-preserving,
ingredients-preserving map of the recipe table. -/
theorem ingredientsOf_eq_of_map (db db2 : DB) (g : Recipe → Recipe)
    (h : db2.recipes = db.recipes.map g) (hid : ∀ r, (g r).id = r.id)
    (hing : ∀ r, (g r).ingredients = r.ingredients) (rid : Nat) :
    ingredientsOf db2 rid = ingredientsOf db rid := by
  unfold ingredientsOf
  rw [h, find?_map_id _ g hid rid]
  cases db.recipes.find? (fun r => r.id == rid) with
  | none => rfl
  | some r => simp [hing r]

/-- `instance.tags.clear()` empties the recipe's linked-tags list. -/
theorem tagsOf_clear (db : DB) (rid : Nat) :
    tagsOf (recipeClearTags db rid) rid = [] := by
  unfold recipeClearTags tagsOf
  simp only
  rw [find?_map_id _ _ (fun r => (clearTags_touches rid r).1) rid]
  cases hf : db.recipes.find? (fun r => r.id == rid) with
  | none => rfl
  | some r =>
    have hr : r.id = rid := by simpa using List.find?_some hf
    simp [hr]

/-- `instance.ingredients.clear()` empties the recipe's
linked-ingredients list. -/
theorem ingredientsOf_clear (db : DB) (rid : Nat) :
    ingredientsOf (recipeClearIngredients db rid) rid = [] := by
  unfold recipeClearIngredients ingredientsOf
  simp only
  rw [find?_map_id _ _ (fun r => (clearIngredients_touches rid r).1) rid]
  cases hf : db.recipes.find? (fun r => r.id == rid) with
  | none => rfl
  | some r =>
    have hr : r.id = rid := by simpa using List.find?_some hf
    simp [hr]

/-- Recipe existence is unchanged by an id-preserving map of the recipe
table. -/
theorem find?_isSome_of_map (db db2 : DB) (g : Recipe → Recipe)
    (h : db2.recipes = db.recipes.map g) (hid : ∀ r, (g r).id = r.id) (rid : Nat) :
    (db2.recipes.find? (fun r => r.id == rid)).isSome =
      (db.recipes.find? (fun r => r.id == rid)).isSome := by
  rw [h, find?_map_id _ g hid rid]
  cases db.recipes.find? (fun r => r.id == rid) <;> rfl

/-- The scalar-assignment step of `update` preserves id, owner, linked
tags and linked ingredients of every row. -/
theorem scalarMap_props (pk : Nat) (v : ValidatedRecipeData) (r : Recipe) :
    ((fun r => if r.id == pk then applyScalarFields r v else r) r).id = r.id ∧
    ((fun r => if r.id == pk then applyScalarFields r v else r) r).user = r.user ∧
    ((fun r => if r.id == pk then applyScalarFields r v else r) r).tags = r.tags ∧
    ((fun r => if r.id == pk then applyScalarFields r v else r) r).ingredients =
      r.ingredients := by
  dsimp only
  by_cases h : (r.id == pk) = true
  · rw [if_pos h]
    exact ⟨rfl, rfl, rfl, rfl⟩
  · rw [if_neg h]
    exact ⟨rfl, rfl, rfl, rfl⟩

/-- The scalar-assignment step leaves each scalar field alone when its
key is absent from the validated payload. -/
theorem scalarMap_keeps (pk : Nat) (v : ValidatedRecipeData) (r : Recipe) :
    (v.title = none →
      ((fun r => if r.id == pk then applyScalarFields r v else r) r).title = r.title) ∧
    (v.time_minutes = none →
      ((fun r => if r.id == pk then applyScalarFields r v else r) r).time_minutes =
        r.time_minutes) ∧
    (v.price = none →
      ((fun r => if r.id == pk then applyScalarFields r v else r) r).price = r.price) ∧
    (v.link = none →
      ((fun r => if r.id == pk then applyScalarFields r v else r) r).link = r.link) ∧
    (v.description = none →
      ((fun r => if r.id == pk then applyScalarFields r v else r) r).description =
        r.description) := by
  dsimp only
  by_cases h : (r.id == pk) = true
  · rw [if_pos h]
    unfold applyScalarFields
    refine ⟨?_, ?_, ?_, ?_, ?_⟩ <;> intro hv <;> rw [hv] <;> rfl
  · rw [if_neg h]
    exact ⟨fun _ => rfl, fun _ => rfl, fun _ => rfl, fun _ => rfl, fun _ => rfl⟩

/-- Transitivity of map-shaped recipe tables. -/
theorem map_shape_trans {l l1 l2 : List Recipe} {g1 g2 : Recipe → Recipe}
    (h1 : l1 = l.map g1) (h2 : l2 = l1.map g2) : l2 = l.map (g2 ∘ g1) := by
  rw [h2, h1, List.map_map]

/-- The recipe rows after `RecipeSerializer.update` are an id- and
owner-preserving image of the old rows, and each scalar field whose key
is absent from the payload is carried over unchanged. -/
theorem serializer_update_recipes_shape (db : DB) (u pk : Nat)
    (v : ValidatedRecipeData) :
    ∃ G, (serializer_update db u pk v).recipes = db.recipes.map G ∧
      (∀ r, (G r).id = r.id) ∧ (∀ r, (G r).user = r.user) ∧
      (v.title = none → ∀ r, (G r).title = r.title) ∧
      (v.time_minutes = none → ∀ r, (G r).time_minutes = r.time_minutes) ∧
      (v.price = none → ∀ r, (G r).price = r.price) ∧
      (v.link = none → ∀ r, (G r).link = r.link) ∧
      (v.description = none → ∀ r, (G r).description = r.description) := by
  obtain ⟨G1, hG1, hrec1⟩ : ∃ G1, touchesOnlyTags G1 ∧
      (match v.tags with
       | some names => get_or_create_tags (recipeClearTags db pk) u names pk
       | none => db).recipes = db.recipes.map G1 := by
    cases v.tags with
    | none =>
      refine ⟨id, touchesOnlyTags_id, ?_⟩
      rw [List.map_id]
    | some nt =>
      rcases fold_tag_recipes_shape u pk nt (recipeClearTags db pk) with ⟨G, hG, hrec⟩
      exact ⟨G ∘ (fun r => if r.id == pk then { r with tags := [] } else r),
        touchesOnlyTags_comp (clearTags_touches pk) hG, map_shape_trans rfl hrec⟩
  obtain ⟨G2, hG2, hrec2⟩ : ∃ G2, touchesOnlyIngredients G2 ∧
      (match v.ingredients with
       | some names => get_or_create_ingredients
           (recipeClearIngredients (match v.tags with
             | some names2 => get_or_create_tags (recipeClearTags db pk) u names2 pk
             | none => db) pk) u names pk
       | none => (match v.tags with
           | some names2 => get_or_create_tags (recipeClearTags db pk) u names2 pk
           | none => db)).recipes =
        (match v.tags with
         | some names2 => get_or_create_tags (recipeClearTags db pk) u names2 pk
         | none => db).recipes.map G2 := by
    cases v.ingredients with
    | none =>
      refine ⟨id, touchesOnlyIngredients_id, ?_⟩
      rw [List.map_id]
    | some ni =>
      rcases fold_ingredient_recipes_shape u pk ni
        (recipeClearIngredients (match v.tags with
          | some names2 => get_or_create_tags (recipeClearTags db pk) u names2 pk
          | none => db) pk) with ⟨G, hG, hrec⟩
      exact ⟨G ∘ (fun r => if r.id == pk then { r with ingredients := [] } else r),
        touchesOnlyIngredients_comp (clearIngredients_touches pk) hG,
        map_shape_trans rfl hrec⟩
  refine ⟨(fun r => if r.id == pk then applyScalarFields r v else r) ∘ (G2 ∘ G1),
    ?_, ?_, ?_, ?_, ?_, ?_, ?_, ?_⟩
  · exact map_shape_trans (map_shape_trans hrec1 hrec2) rfl
  · intro r
    exact ((scalarMap_props pk v _).1.trans ((hG2 _).1.trans (hG1 r).1))
  · intro r
    exact ((scalarMap_props pk v _).2.1.trans ((hG2 _).2.1.trans (hG1 r).2.1))
  · intro hv r
    exact (((scalarMap_keeps pk v _).1 hv).trans ((hG2 _).2.2.1.trans (hG1 r).2.2.1))
  · intro hv r
    exact (((scalarMap_keeps pk v _).2.1 hv).trans
      ((hG2 _).2.2.2.1.trans (hG1 r).2.2.2.1))
  · intro hv r
    exact (((scalarMap_keeps pk v _).2.2.1 hv).trans
      ((hG2 _).2.2.2.2.1.trans (hG1 r).2.2.2.2.1))
  · intro hv r
    exact (((scalarMap_keeps pk v _).2.2.2.1 hv).trans
      ((hG2 _).2.2.2.2.2.2.1.trans (hG1 r).2.2.2.2.2.2.1))
  · intro hv r
    exact (((scalarMap_keeps pk v _).2.2.2.2 hv).trans
      ((hG2 _).2.2.2.2.2.1.trans (hG1 r).2.2.2.2.2.1))

/-- The linked tags of the updated recipe are those produced by the tag
branch of `update`: untouched for an absent key, rebuilt from a cleared
state for a present key. -/
theorem serializer_update_tagsOf (db : DB) (u pk : Nat) (v : ValidatedRecipeData) :
    tagsOf (serializer_update db u pk v) pk =
      (match v.tags with
       | some names => tagsOf (get_or_create_tags (recipeClearTags db pk) u names pk) pk
       | none => tagsOf db pk) := by
  have hlast : ∀ X : DB,
      tagsOf { X with
        recipes := X.recipes.map (fun r => if r.id == pk then applyScalarFields r v else r) } pk =
      tagsOf X pk := by
    intro X
    exact tagsOf_eq_of_map X _ _ rfl (fun r => (scalarMap_props pk v r).1)
      (fun r => (scalarMap_props pk v r).2.2.1) pk
  unfold serializer_update
  cases ht : v.tags with
  | none =>
    cases hi : v.ingredients with
    | none => exact hlast db
    | some ni =>
      rcases fold_ingredient_recipes_shape u pk ni (recipeClearIngredients db pk)
        with ⟨G, hG, hrec⟩
      rw [hlast _]
      rw [tagsOf_eq_of_map (recipeClearIngredients db pk) _ G hrec
        (fun r => (hG r).1) (fun r => (hG r).2.2.2.2.2.2.2.2) pk]
      exact tagsOf_eq_of_map db _ _ rfl
        (fun r => (clearIngredients_touches pk r).1)
        (fun r => (clearIngredients_touches pk r).2.2.2.2.2.2.2.2) pk
  | some nt =>
    cases hi : v.ingredients with
    | none => exact hlast _
    | some ni =>
      rcases fold_ingredient_recipes_shape u pk ni
        (recipeClearIngredients (get_or_create_tags (recipeClearTags db pk) u nt pk) pk)
        with ⟨G, hG, hrec⟩
      rw [hlast _]
      rw [tagsOf_eq_of_map _ _ G hrec
        (fun r => (hG r).1) (fun r => (hG r).2.2.2.2.2.2.2.2) pk]
      exact tagsOf_eq_of_map _ _ _ rfl
        (fun r => (clearIngredients_touches pk r).1)
        (fun r => (clearIngredients_touches pk r).2.2.2.2.2.2.2.2) pk

/-- The tag table after `update` is the one the tag branch produced. -/
theorem serializer_update_tags_table (db : DB) (u pk : Nat) (v : ValidatedRecipeData) :
    (serializer_update db u pk v).tags =
      (match v.tags with
       | some names => (get_or_create_tags (recipeClearTags db pk) u names pk).tags
       | none => db.tags) := by
  unfold serializer_update
  cases ht : v.tags with
  | none =>
    cases hi : v.ingredients with
    | none => rfl
    | some ni => exact fold_ingredient_keeps_tag_table u pk ni _
  | some nt =>
    cases hi : v.ingredients with
    | none => rfl
    | some ni => exact fold_ingredient_keeps_tag_table u pk ni _

/-- For a present `ingredients` key, the updated recipe's linked
ingredients, the ingredient table and the recipe's existence all reduce
to the ingredient branch run on some intermediate state. -/
theorem serializer_update_ing_stage (db : DB) (u pk : Nat) (v : ValidatedRecipeData)
    (ni : List String) (hing : v.ingredients = some ni) :
    ∃ dbx, (serializer_update db u pk v).ingredients =
        (get_or_create_ingredients (recipeClearIngredients dbx pk) u ni pk).ingredients ∧
      ingredientsOf (serializer_update db u pk v) pk =
        ingredientsOf (get_or_create_ingredients
          (recipeClearIngredients dbx pk) u ni pk) pk ∧
      (dbx.recipes.find? (fun r => r.id == pk)).isSome =
        (db.recipes.find? (fun r => r.id == pk)).isSome := by
  have hlast : ∀ X : DB,
      ingredientsOf { X with
        recipes := X.recipes.map (fun r => if r.id == pk then applyScalarFields r v else r) } pk =
      ingredientsOf X pk := by
    intro X
    exact ingredientsOf_eq_of_map X _ _ rfl (fun r => (scalarMap_props pk v r).1)
      (fun r => (scalarMap_props pk v r).2.2.2) pk
  unfold serializer_update
  rw [hing]
  cases ht : v.tags with
  | none => exact ⟨db, rfl, hlast _, rfl⟩
  | some nt =>
    refine ⟨get_or_create_tags (recipeClearTags db pk) u nt pk, rfl, hlast _, ?_⟩
    rcases fold_tag_recipes_shape u pk nt (recipeClearTags db pk) with ⟨G, hG, hrec⟩
    have hshape : (get_or_create_tags (recipeClearTags db pk) u nt pk).recipes =
        db.recipes.map (G ∘ (fun r => if r.id == pk then { r with tags := [] } else r)) :=
      map_shape_trans rfl hrec
    exact find?_isSome_of_map db _ _ hshape
      (fun r => ((clearTags_touches pk r).1 ▸ (hG _).1 : _)) pk

/-- For an absent `ingredients` key the updated recipe's linked
ingredients are unchanged. -/
theorem serializer_update_ing_none (db : DB) (u pk : Nat) (v : ValidatedRecipeData)
    (hing : v.ingredients = none) :
    ingredientsOf (serializer_update db u pk v) pk = ingredientsOf db pk := by
  have hlast : ∀ X : DB,
      ingredientsOf { X with
        recipes := X.recipes.map (fun r => if r.id == pk then applyScalarFields r v else r) } pk =
      ingredientsOf X pk := by
    intro X
    exact ingredientsOf_eq_of_map X _ _ rfl (fun r => (scalarMap_props pk v r).1)
      (fun r => (scalarMap_props pk v r).2.2.2) pk
  unfold serializer_update
  rw [hing]
  cases ht : v.tags with
  | none => exact hlast db
  | some nt =>
    rw [hlast _]
    rcases fold_tag_recipes_shape u pk nt (recipeClearTags db pk) with ⟨G, hG, hrec⟩
    rw [ingredientsOf_eq_of_map (recipeClearTags db pk) _ G hrec
      (fun r => (hG r).1) (fun r => (hG r).2.2.2.2.2.2.2.2) pk]
    exact ingredientsOf_eq_of_map db _ _ rfl
      (fun r => (clearTags_touches pk r).1)
      (fun r => (clearTags_touches pk r).2.2.2.2.2.2.2.2) pk

/-- The ingredient table after `update` with an absent key: only the tag
branch could have grown it; with a present key it is the branch's
output (stated through `serializer_update_ing_stage`).  For the absent
key it is reachable from the tag branch only, which never touches it. -/
theorem serializer_update_ing_table_none (db : DB) (u pk : Nat)
    (v : ValidatedRecipeData) (hing : v.ingredients = none) :
    (serializer_update db u pk v).ingredients = db.ingredients := by
  unfold serializer_update
  rw [hing]
  cases ht : v.tags with
  | none => rfl
  | some nt => exact fold_tag_keeps_ingredient_table u pk nt _

/-! ## C8: updates never change a recipe's owner -/

/-- `get_object` succeeds on the owner's recipe. -/
theorem recipe_get_object_found (db : DB) (u pk : Nat) (r : Recipe)
    (hr : r ∈ db.recipes) (hid : r.id = pk) (hu : r.user = u) :
    (recipe_get_object db u pk).isSome = true := by
  unfold recipe_get_object
  rw [recipe_queryset_none_none, List.find?_isSome]
  exact ⟨r, (mem_dedup_sort_filter db.recipes u r).mpr ⟨hr, hu⟩, by simp [hid]⟩

/-- C8: an authenticated update (full or partial) never changes the
recipe's owner, even when the payload carries a `user` key — validation
drops the key (it is not a serializer field), the request succeeds with
200 rather than being rejected, and the stored owner is unchanged. -/
theorem update_preserves_owner (db : DB) (u pk : Nat) (p : RecipePayload)
    (r : Recipe) (hr : r ∈ db.recipes) (hid : r.id = pk) :
    (∃ rr ∈ (recipeUpdateRequest db u pk p).2.recipes,
       rr.id = pk ∧ rr.user = r.user) ∧
    (r.user = u → (recipeUpdateRequest db u pk p).1 = 200) := by
  constructor
  · unfold recipeUpdateRequest
    cases hobj : recipe_get_object db u pk with
    | none => exact ⟨r, hr, hid, rfl⟩
    | some r0 =>
      rcases serializer_update_recipes_shape db u pk (run_validation p)
        with ⟨G, hrec, hidG, huser, _⟩
      refine ⟨G r, ?_, ?_, ?_⟩
      · show G r ∈ (serializer_update db u pk (run_validation p)).recipes
        rw [hrec]
        exact List.mem_map.mpr ⟨r, hr, rfl⟩
      · rw [hidG r, hid]
      · exact huser r
  · intro hu
    unfold recipeUpdateRequest
    rcases Option.isSome_iff_exists.mp
      (recipe_get_object_found db u pk r hr hid hu) with ⟨r0, h0⟩
    rw [h0]

/-- C8 witness: user 1 patches recipe 1 of `dbW` with a payload that
names a `user` key pointing at user 2; the request answers 200 and the
stored recipe still belongs to user 1. -/
theorem update_preserves_owner_witness :
    (∃ rr ∈ (recipeUpdateRequest dbW 1 1
        ⟨some "New", none, none, none, none, none, none, some 2⟩).2.recipes,
       rr.id = 1 ∧ rr.user = 1) ∧
    (recipeUpdateRequest dbW 1 1
        ⟨some "New", none, none, none, none, none, none, some 2⟩).1 = 200 := by
  have h := update_preserves_owner dbW 1 1
    ⟨some "New", none, none, none, none, none, none, some 2⟩
    ⟨1, 1, "Spaghetti", 5, 10, "", "", none, [1], [1]⟩ (by decide) (by decide)
  exact ⟨h.1, h.2 (by decide)⟩

/-! ## C9: absent key versus present (possibly empty) list on update -/

/-- C9: `RecipeSerializer.update` distinguishes an absent related-items
key from a present empty list: an omitted `tags` (`ingredients`) key
leaves the recipe's associations unchanged; a present key fully replaces
them — every remaining link points at a row of the authenticated user
named in the list, every listed name ends up linked, and a present empty
list clears all associations; scalar fields whose keys are absent are
unchanged. -/
theorem update_related_semantics (db : DB) (u pk : Nat) (v : ValidatedRecipeData) :
    (v.tags = none → tagsOf (serializer_update db u pk v) pk = tagsOf db pk) ∧
    (v.ingredients = none →
       ingredientsOf (serializer_update db u pk v) pk = ingredientsOf db pk) ∧
    (v.tags = some [] → tagsOf (serializer_update db u pk v) pk = []) ∧
    (v.ingredients = some [] →
       ingredientsOf (serializer_update db u pk v) pk = []) ∧
    (∀ names, v.tags = some names →
       ∀ tid ∈ tagsOf (serializer_update db u pk v) pk,
         ∃ t ∈ (serializer_update db u pk v).tags,
           t.id = tid ∧ t.user = u ∧ t.name ∈ names) ∧
    (∀ names, v.ingredients = some names →
       ∀ iid ∈ ingredientsOf (serializer_update db u pk v) pk,
         ∃ i ∈ (serializer_update db u pk v).ingredients,
           i.id = iid ∧ i.user = u ∧ i.name ∈ names) ∧
    (∀ names, v.tags = some names →
       (db.recipes.find? (fun r => r.id == pk)).isSome = true →
       ∀ n ∈ names, ∃ t ∈ (serializer_update db u pk v).tags,
         t.user = u ∧ t.name = n ∧ t.id ∈ tagsOf (serializer_update db u pk v) pk) ∧
    (∀ names, v.ingredients = some names →
       (db.recipes.find? (fun r => r.id == pk)).isSome = true →
       ∀ n ∈ names, ∃ i ∈ (serializer_update db u pk v).ingredients,
         i.user = u ∧ i.name = n ∧
           i.id ∈ ingredientsOf (serializer_update db u pk v) pk) ∧
    (∀ r ∈ db.recipes, r.id = pk →
       ∃ rr ∈ (serializer_update db u pk v).recipes, rr.id = pk ∧
         (v.title = none → rr.title = r.title) ∧
         (v.time_minutes = none → rr.time_minutes = r.time_minutes) ∧
         (v.price = none → rr.price = r.price) ∧
         (v.link = none → rr.link = r.link) ∧
         (v.description = none → rr.description = r.description)) := by
  refine ⟨?_, ?_, ?_, ?_, ?_, ?_, ?_, ?_, ?_⟩
  · intro h
    rw [serializer_update_tagsOf, h]
  · exact serializer_update_ing_none db u pk v
  · intro h
    rw [serializer_update_tagsOf, h]
    exact tagsOf_clear db pk
  · intro h
    rcases serializer_update_ing_stage db u pk v [] h with ⟨dbx, _, hOf, _⟩
    rw [hOf]
    exact ingredientsOf_clear dbx pk
  · intro names h tid htid
    rw [serializer_update_tagsOf, h] at htid
    rcases fold_link_sound u pk names (recipeClearTags db pk) tid htid with hold | ⟨t, ht, hi, hu, hn⟩
    · rw [tagsOf_clear db pk] at hold
      cases hold
    · refine ⟨t, ?_, hi, hu, hn⟩
      rw [serializer_update_tags_table, h]
      exact ht
  · intro names h iid hiid
    rcases serializer_update_ing_stage db u pk v names h with ⟨dbx, htab, hOf, _⟩
    rw [hOf] at hiid
    rcases fold_ing_link_sound u pk names (recipeClearIngredients dbx pk) iid hiid with hold | ⟨i, hti, hi, hu, hn⟩
    · rw [ingredientsOf_clear dbx pk] at hold
      cases hold
    · refine ⟨i, ?_, hi, hu, hn⟩
      rw [htab]
      exact hti
  · intro names h hex n hn
    have hex' : ((recipeClearTags db pk).recipes.find? (fun r => r.id == pk)).isSome = true := by
      rw [find?_isSome_of_map db (recipeClearTags db pk) _ rfl
        (fun r => (clearTags_touches pk r).1) pk]
      exact hex
    rcases fold_link_complete u pk names (recipeClearTags db pk) hex' n hn
      with ⟨t, ht, hu, hn', hlink⟩
    refine ⟨t, ?_, hu, hn', ?_⟩
    · rw [serializer_update_tags_table, h]
      exact ht
    · rw [serializer_update_tagsOf, h]
      exact hlink
  · intro names h hex n hn
    rcases serializer_update_ing_stage db u pk v names h with ⟨dbx, htab, hOf, hfind⟩
    have hex' : ((recipeClearIngredients dbx pk).recipes.find?
        (fun r => r.id == pk)).isSome = true := by
      rw [find?_isSome_of_map dbx (recipeClearIngredients dbx pk) _ rfl
        (fun r => (clearIngredients_touches pk r).1) pk, hfind]
      exact hex
    rcases fold_ing_link_complete u pk names (recipeClearIngredients dbx pk) hex' n hn
      with ⟨i, hti, hu, hn', hlink⟩
    refine ⟨i, ?_, hu, hn', ?_⟩
    · rw [htab]
      exact hti
    · rw [hOf]
      exact hlink
  · intro r hr hid
    rcases serializer_update_recipes_shape db u pk v
      with ⟨G, hrec, hidG, _, ht, htm, hp, hl, hd⟩
    refine ⟨G r, ?_, ?_, fun hv => ht hv r, fun hv => htm hv r, fun hv => hp hv r,
      fun hv => hl hv r, fun hv => hd hv r⟩
    · rw [hrec]
      exact List.mem_map.mpr ⟨r, hr, rfl⟩
    · rw [hidG r, hid]

/-- C9 witness: on `dbW`, patching recipe 1 with an absent `tags` key
leaves its tag links `[1]`; patching with `tags = []` clears them; the
absent `title` keeps the stored title. -/
theorem update_related_semantics_witness :
    tagsOf (serializer_update dbW 1 1 ⟨none, none, none, none, none, none, none⟩) 1 =
      tagsOf dbW 1 ∧
    tagsOf (serializer_update dbW 1 1 ⟨none, none, none, none, none, some [], none⟩) 1 =
      [] ∧
    (∃ rr ∈ (serializer_update dbW 1 1
        ⟨none, none, none, none, none, some [], none⟩).recipes,
       rr.id = 1 ∧ rr.title = "Spaghetti") := by
  have h1 := update_related_semantics dbW 1 1 ⟨none, none, none, none, none, none, none⟩
  have h2 := update_related_semantics dbW 1 1 ⟨none, none, none, none, none, some [], none⟩
  refine ⟨h1.1 rfl, h2.2.2.1 rfl, ?_⟩
  rcases h2.2.2.2.2.2.2.2.2 ⟨1, 1, "Spaghetti", 5, 10, "", "", none, [1], [1]⟩
    (by decide) (by decide) with ⟨rr, hmem, hid, htitle, _⟩
  exact ⟨rr, hmem, hid, htitle rfl⟩

/-! ## C6: short passwords are rejected and nothing is stored -/

/-- C6: a user-creation request whose password is shorter than 5
characters answers 400 Bad Request with the database unchanged, so after
the failed request no user with the given email exists (when none
existed before). -/
theorem short_password_rejected (db : DB) (email password uname : String)
    (h : password.length < 5) :
    createUserRequest db email password uname = (400, db) ∧
    ((∀ w ∈ db.users, w.email ≠ email) →
       ∀ w ∈ (createUserRequest db email password uname).2.users,
         w.email ≠ email) := by
  have he : createUserRequest db email password uname = (400, db) := by
    unfold createUserRequest
    rw [if_pos (Or.inl h)]
  refine ⟨he, ?_⟩
  intro hnone w hw
  rw [he] at hw
  exact hnone w hw

/-- C6 witness: the test suite's too-short password `pw` against
`dbW`. -/
theorem short_password_rejected_witness :
    createUserRequest dbW "test@example.com" "pw" "Test name" = (400, dbW) ∧
    ∀ w ∈ (createUserRequest dbW "test@example.com" "pw" "Test name").2.users,
      w.email ≠ "test@example.com" := by
  have h := short_password_rejected dbW "test@example.com" "pw" "Test name" (by decide)
  exact ⟨h.1, h.2 (by decide)⟩

end RecipeAPI
